import Mathlib

/-!
Verification development for the vector-control dashboard's core data
pipeline (`utils/data_processor.py`, `utils/sector_similarity.py`,
`utils/table_helpers.py`, `components/cerco_tab.py`).

The pandas data model is shallowly embedded: a cell is a `Val` (null models
`NaN`/`None`/`NaT`, numbers are exact rationals, dates are parsed
year/month/day triples), a column carries a pandas dtype tag, and a
DataFrame is a list of columns.  All operations are translated from the
Python source line by line; machine-float arithmetic in the source is
modelled by exact rationals.
-/

/-- A pandas cell value. `null` models `NaN`, `None` and `NaT`; `num`
models int/float cells as an exact rational; `date` models a parsed
timestamp as a (year, month, day) triple. -/
inductive Val where
  | null : Val
  | str (s : String) : Val
  | num (q : ℚ) : Val
  | date (y : Int) (m : Nat) (d : Nat) : Val
  deriving DecidableEq, Repr

/-- pandas column dtype tags: `object` (strings / mixed), `numeric`
(int64/float64), `datetime` (datetime64), `category`. -/
inductive DType where
  | object : DType
  | numeric : DType
  | datetime : DType
  | category : DType
  deriving DecidableEq, Repr

/-- One DataFrame column: a name, a dtype tag and the cell values in row
order. -/
structure Col where
  name : String
  dtype : DType
  cells : List Val
  deriving DecidableEq, Repr

/-- A DataFrame: columns in order.  Rows are positional across columns. -/
structure DF where
  cols : List Col
  deriving DecidableEq, Repr

namespace DF

/-- Column names in order. -/
def names (df : DF) : List String := df.cols.map Col.name

/-- `len(df)`: the row count (length of the first column, 0 if no
columns). -/
def numRows (df : DF) : Nat :=
  match df.cols with
  | [] => 0
  | c :: _ => c.cells.length

/-- `df.empty`: true when there are no rows or no columns. -/
def isEmpty (df : DF) : Bool :=
  df.cols.isEmpty || df.numRows == 0

/-- Well-formedness: every column has the same number of cells. -/
def Wf (df : DF) : Prop := ∀ c ∈ df.cols, c.cells.length = df.numRows

instance : DecidablePred Wf := fun df =>
  decidable_of_iff (∀ c ∈ df.cols, c.cells.length = df.numRows) Iff.rfl

/-- `df[name]` lookup: the first column with the given name (pandas label
lookup). -/
def findCol (df : DF) (n : String) : Option Col :=
  df.cols.find? (fun c => c.name = n)

/-- `name in df.columns`. -/
def hasCol (df : DF) (n : String) : Bool := (df.findCol n).isSome

/-- Map a function over every column. -/
def mapCols (df : DF) (f : Col → Col) : DF := ⟨df.cols.map f⟩

/-- `df.replace(old, new)`: elementwise scalar replacement across every
column (pandas applies it to object, numeric and categorical columns
alike). -/
def replace (df : DF) (old new : Val) : DF :=
  df.mapCols (fun c => { c with cells := c.cells.map (fun v => if v = old then new else v) })

end DF

/-- Zip-filter: keep the values at positions where the mask is `true`
(a pandas boolean-mask row selection for one column). -/
def applyMask {A : Type} : List Bool → List A → List A
  | true :: ms, v :: vs => v :: applyMask ms vs
  | false :: ms, _ :: vs => applyMask ms vs
  | _, _ => []

/-- Scatter assignment `col.loc[mask] = sub`: at mask-`true` positions take
the next value of `sub`, elsewhere keep the original value.  If either the
mask or `sub` runs out, the remaining original values are kept. -/
def scatterMask {A : Type} : List Bool → List A → List A → List A
  | true :: ms, _ :: cs, s :: ss => s :: scatterMask ms cs ss
  | true :: ms, c :: cs, [] => c :: scatterMask ms cs []
  | false :: ms, c :: cs, ss => c :: scatterMask ms cs ss
  | [], cs, _ => cs
  | _, [], _ => []

/-- `df[mask]`: boolean-mask row selection applied to every column. -/
def DF.maskFilter (df : DF) (mask : List Bool) : DF :=
  df.mapCols (fun c => { c with cells := applyMask mask c.cells })

/-- `df.loc[mask] = sub`: scatter the rows of `sub` back into the
mask-`true` positions, column by column (columns paired positionally,
as `sub` is a same-shaped derived copy). -/
def DF.maskAssign (df : DF) (mask : List Bool) (sub : DF) : DF :=
  ⟨(df.cols.zip sub.cols).map (fun p =>
     { p.1 with cells := scatterMask mask p.1.cells p.2.cells })⟩

/-- `series.dropna().unique()` order-preserving distinct values (first
occurrence kept); with `dropNull := false` it is plain `unique()`, which
keeps `NaN`. -/
def pdUnique (dropNull : Bool) (l : List Val) : List Val :=
  go [] (if dropNull then l.filter (fun v => v ≠ Val.null) else l)
where
  go (seen : List Val) : List Val → List Val
    | [] => []
    | v :: vs => if seen.contains v then go seen vs else v :: go (v :: seen) vs

/-- `series.nunique()`: number of distinct non-null values. -/
def Col.nunique (c : Col) : Nat := (pdUnique true c.cells).length

-- Basic mask lemmas shared by the filtering proofs.

theorem applyMask_length_le (m : List Bool) (l : List Val) :
    (applyMask m l).length ≤ l.length := by
  induction m generalizing l with
  | nil => cases l <;> simp [applyMask]
  | cons b ms ih =>
    cases l with
    | nil => cases b <;> simp [applyMask]
    | cons v vs =>
      cases b with
      | true => simpa [applyMask] using ih vs
      | false =>
        simp only [applyMask]
        exact le_trans (ih vs) (Nat.le_succ _)

theorem applyMask_map {A B : Type} (f : A → B) (m : List Bool) (l : List A) :
    applyMask m (l.map f) = (applyMask m l).map f := by
  induction m generalizing l with
  | nil => cases l <;> simp [applyMask]
  | cons b ms ih =>
    cases l with
    | nil => cases b <;> simp [applyMask]
    | cons v vs => cases b <;> simp [applyMask, ih]

theorem scatterMask_applyMask (m : List Bool) (l : List Val) :
    scatterMask m l (applyMask m l) = l := by
  induction m generalizing l with
  | nil => cases l <;> simp [scatterMask, applyMask]
  | cons b ms ih =>
    cases l with
    | nil => cases b <;> simp [scatterMask, applyMask]
    | cons v vs => cases b <;> simp [scatterMask, applyMask, ih]

-- ### Rendering of numbers and dates as Python `str(...)` strings

/-- The decimal digit character for `n % 10`. -/
def digitChar (n : Nat) : Char :=
  if n % 10 = 0 then '0' else if n % 10 = 1 then '1' else if n % 10 = 2 then '2'
  else if n % 10 = 3 then '3' else if n % 10 = 4 then '4' else if n % 10 = 5 then '5'
  else if n % 10 = 6 then '6' else if n % 10 = 7 then '7' else if n % 10 = 8 then '8'
  else '9'

theorem digitChar_isDigit (n : Nat) : (digitChar n).isDigit := by
  unfold digitChar
  split
  · decide
  all_goals (split
             <;> first
             | decide
             | (split <;> first
                | decide
                | (split <;> first
                   | decide
                   | (split <;> first
                      | decide
                      | (split <;> first
                         | decide
                         | (split <;> first
                            | decide
                            | (split <;> first
                               | decide
                               | (split <;> decide))))))))

/-- Decimal digit characters of `n`, most significant first. -/
def natDigits (n : Nat) : List Char :=
  if h : n < 10 then [digitChar n]
  else natDigits (n / 10) ++ [digitChar n]
termination_by n
decreasing_by
  exact Nat.div_lt_self (Nat.lt_of_lt_of_le (by norm_num) (Nat.le_of_not_lt h)) (by norm_num)

theorem natDigits_ne_nil (n : Nat) : natDigits n ≠ [] := by
  unfold natDigits
  split
  · simp
  · simp

theorem natDigits_all_digit (n : Nat) : ∀ c ∈ natDigits n, c.isDigit := by
  induction n using natDigits.induct with
  | case1 n h =>
    intro c hc
    rw [natDigits, dif_pos h] at hc
    simp at hc
    subst hc
    exact digitChar_isDigit n
  | case2 n h ih =>
    intro c hc
    rw [natDigits, dif_neg h] at hc
    rcases List.mem_append.mp hc with h1 | h1
    · exact ih c h1
    · simp at h1
      subst h1
      exact digitChar_isDigit n

/-- `str(n)` for a natural number. -/
def natStr (n : Nat) : String := ⟨natDigits n⟩

/-- `str(i)` for an integer. -/
def intStr (i : Int) : String :=
  if i < 0 then "-" ++ natStr (-i).toNat else natStr i.toNat

/-- `str(x)` for a numeric cell, modelled on the exact rational.  Only the
string's shape (first character a digit or minus sign) matters for the
proofs. -/
def ratStr (q : ℚ) : String :=
  if q.den = 1 then intStr q.num else intStr q.num ++ "/" ++ natStr q.den

/-- `str(ts)` for a timestamp cell. -/
def dateRepr (y : Int) (m d : Nat) : String :=
  intStr y ++ "-" ++ natStr m ++ "-" ++ natStr d

-- The rendered strings never collide with the single-space marker that
-- `process_data` nulls out: their first character is a digit or `-`.

theorem natStr_head (n : Nat) :
    ∃ c, (natStr n).data.head? = some c ∧ c.isDigit := by
  have hne := natDigits_ne_nil n
  cases h : natDigits n with
  | nil => exact absurd h hne
  | cons c l =>
    refine ⟨c, ?_, ?_⟩
    · simp [natStr, h]
    · exact natDigits_all_digit n c (by rw [h]; exact List.mem_cons_self c l)

theorem intStr_head (i : Int) :
    ∃ c, (intStr i).data.head? = some c ∧ (c.isDigit ∨ c = '-') := by
  unfold intStr
  split
  · refine ⟨'-', ?_, Or.inr rfl⟩
    have : ("-" ++ natStr (-i).toNat).data = '-' :: (natStr (-i).toNat).data := rfl
    simp [this]
  · obtain ⟨c, hc, hd⟩ := natStr_head i.toNat
    exact ⟨c, hc, Or.inl hd⟩

theorem head_append_of_ne_nil (a b : String) (h : a.data ≠ []) :
    (a ++ b).data.head? = a.data.head? := by
  have : (a ++ b).data = a.data ++ b.data := rfl
  rw [this]
  cases ha : a.data with
  | nil => exact absurd ha h
  | cons c l => simp

theorem intStr_data_ne_nil (i : Int) : (intStr i).data ≠ [] := by
  obtain ⟨c, hc, _⟩ := intStr_head i
  intro h
  rw [h] at hc
  simp at hc

theorem append_data_ne_nil (a b : String) (h : a.data ≠ []) :
    (a ++ b).data ≠ [] := by
  rw [String.data_append]
  intro hc
  exact h (List.append_eq_nil.mp hc).1

theorem ratStr_head (q : ℚ) :
    ∃ c, (ratStr q).data.head? = some c ∧ (c.isDigit ∨ c = '-') := by
  unfold ratStr
  split
  · exact intStr_head q.num
  · obtain ⟨c, hc, hd⟩ := intStr_head q.num
    refine ⟨c, ?_, hd⟩
    rw [head_append_of_ne_nil _ _ (append_data_ne_nil _ _ (intStr_data_ne_nil q.num)),
        head_append_of_ne_nil _ _ (intStr_data_ne_nil q.num)]
    exact hc

theorem dateRepr_head (y : Int) (m d : Nat) :
    ∃ c, (dateRepr y m d).data.head? = some c ∧ (c.isDigit ∨ c = '-') := by
  obtain ⟨c, hc, hd⟩ := intStr_head y
  refine ⟨c, ?_, hd⟩
  unfold dateRepr
  rw [head_append_of_ne_nil _ _
        (append_data_ne_nil _ _ (append_data_ne_nil _ _
          (append_data_ne_nil _ _ (intStr_data_ne_nil y)))),
      head_append_of_ne_nil _ _
        (append_data_ne_nil _ _ (append_data_ne_nil _ _ (intStr_data_ne_nil y))),
      head_append_of_ne_nil _ _ (append_data_ne_nil _ _ (intStr_data_ne_nil y)),
      head_append_of_ne_nil _ _ (intStr_data_ne_nil y)]
  exact hc

theorem ne_space_of_head (s : String) (c : Char)
    (hc : s.data.head? = some c) (hd : c.isDigit ∨ c = '-') : s ≠ " " := by
  intro h
  subst h
  have hsp : ((" " : String).data.head?) = some ' ' := rfl
  rw [hsp] at hc
  injection hc with hc
  subst hc
  rcases hd with hd | hd
  · exact absurd hd (by decide)
  · exact absurd hd (by decide)

theorem ratStr_ne_space (q : ℚ) : ratStr q ≠ " " := by
  obtain ⟨c, hc, hd⟩ := ratStr_head q
  exact ne_space_of_head _ c hc hd

theorem dateRepr_ne_space (y : Int) (m d : Nat) : dateRepr y m d ≠ " " := by
  obtain ⟨c, hc, hd⟩ := dateRepr_head y m d
  exact ne_space_of_head _ c hc hd


-- ### Cell-level coercions (`pd.to_datetime` / `pd.to_numeric`, `errors='coerce'`)

/-- Digits to a natural number (most significant first). -/
def digitsToNat (l : List Char) : Nat :=
  l.foldl (fun a c => a * 10 + (c.toNat - 48)) 0

/-- Modelled from pandas: the date parser behind
`pd.to_datetime(..., errors='coerce')`, for the ISO `YYYY-MM-DD` strings
the inspection CSVs carry.  Any other string coerces to null. -/
def parseDateStr (s : String) : Option (Int × Nat × Nat) :=
  match s.splitOn "-" with
  | [ys, ms, ds] =>
    if ys ≠ "" ∧ ys.data.all Char.isDigit ∧ ms ≠ "" ∧ ms.data.all Char.isDigit ∧
       ds ≠ "" ∧ ds.data.all Char.isDigit then
      let m := digitsToNat ms.data
      let d := digitsToNat ds.data
      if 1 ≤ m ∧ m ≤ 12 ∧ 1 ≤ d ∧ d ≤ 31 then
        some ((digitsToNat ys.data : Int), m, d)
      else none
    else none
  | _ => none

/-- `pd.to_datetime(cell, errors='coerce')`: timestamps pass through,
parsable strings become timestamps, everything else becomes null. -/
def to_datetime_cell : Val → Val
  | .date y m d => .date y m d
  | .str s =>
    match parseDateStr s with
    | some (y, m, d) => .date y m d
    | none => .null
  | _ => .null

/-- Modelled from pandas: the decimal parser behind
`pd.to_numeric(..., errors='coerce')` — optional sign, digits, optional
fractional part; anything else coerces to null. -/
def parseNumStr (s : String) : Option ℚ :=
  let sgn : ℚ := if s.startsWith "-" then -1 else 1
  let body := if s.startsWith "-" then s.drop 1 else s
  match body.splitOn "." with
  | [ip] =>
    if ip ≠ "" ∧ ip.data.all Char.isDigit then some (sgn * (digitsToNat ip.data : ℚ))
    else none
  | [ip, fp] =>
    if (ip ≠ "" ∨ fp ≠ "") ∧ ip.data.all Char.isDigit ∧ fp.data.all Char.isDigit then
      some (sgn * ((digitsToNat ip.data : ℚ) + (digitsToNat fp.data : ℚ) / (10 : ℚ) ^ fp.length))
    else none
  | _ => none

/-- `pd.to_numeric(cell, errors='coerce')`: numbers pass through, parsable
strings become numbers, everything else becomes null. -/
def to_numeric_cell : Val → Val
  | .num q => .num q
  | .str s =>
    match parseNumStr s with
    | some q => .num q
    | none => .null
  | _ => .null

/-- `series.fillna(fill)` on one cell. -/
def fill_cell (fill : Val) : Val → Val
  | .null => fill
  | v => v

/-- `series.astype(str)` on one cell: strings unchanged, numbers and
timestamps rendered; a null renders as the literal `'nan'` as pandas does
(unreachable after the preceding `fillna('')`). -/
def astype_str_cell : Val → Val
  | .str s => .str s
  | .num q => .str (ratStr q)
  | .date y m d => .str (dateRepr y m d)
  | .null => .str "nan"

/-- `series.dt.year` on one cell (null for `NaT`). -/
def year_cell : Val → Val
  | .date y _ _ => .num (y : ℚ)
  | _ => .null

/-- The `.replace('nan','').replace('NaN','').replace('None','')` chain of
`process_data` on one (post-`astype(str)`) cell. -/
def replace_text_markers : Val → Val
  | .str s => if s = "nan" ∨ s = "NaN" ∨ s = "None" then .str "" else .str s
  | v => v

/-- `self.data[col] = series`: overwrite every column labelled `col`
in place (pandas setitem assigns through duplicate labels), or append a
new column when the label is absent. -/
def DF.setCol (df : DF) (n : String) (dt : DType) (cells : List Val) : DF :=
  if df.hasCol n then
    df.mapCols (fun c => if c.name = n then ⟨n, dt, cells⟩ else c)
  else ⟨df.cols ++ [⟨n, dt, cells⟩]⟩

-- ### `DataProcessor.process_data` (data_processor.py lines 144-190)

/-- The fixed date-column list (lines 152-154). -/
def date_columns : List String :=
  ["fecha_inspeccion", "_createdAt_x", "_createdAt_y", "hora_ingreso",
   "hora_salida", "fecha_creacion", "recuperacion_fecha",
   "recuperacion_fecha_asignacion"]

/-- The critical numeric columns (lines 165-166). -/
def critical_numeric_columns : List String :=
  ["cod_renipress", "aedic_index", "container_index", "breteau_index",
   "intensity", "indice_aedico"]

/-- `DataProcessor.process_data` (lines 144-190): clear empty markers,
parse date columns, derive `year`, coerce critical numeric columns, fill
numeric nulls with 0, and clean text (object-dtype) columns. -/
def process_data (df : DF) : DF :=
  -- lines 147-149
  let d := df.replace (.str "") .null
  let d := d.replace (.str " ") .null
  let d := d.replace (.str "nan") .null
  -- lines 156-158
  let d := d.mapCols (fun c =>
    if date_columns.contains c.name then
      ⟨c.name, .datetime, c.cells.map to_datetime_cell⟩
    else c)
  -- lines 161-162
  let d := match d.findCol "fecha_inspeccion" with
    | some fc => d.setCol "year" .numeric (fc.cells.map year_cell)
    | none => d
  -- lines 168-171
  let d := d.mapCols (fun c =>
    if critical_numeric_columns.contains c.name then
      ⟨c.name, .numeric, (c.cells.map to_numeric_cell).map (fill_cell (.num 0))⟩
    else c)
  -- lines 174-175
  let d := d.mapCols (fun c =>
    if c.dtype = .numeric then { c with cells := c.cells.map (fill_cell (.num 0)) }
    else c)
  -- lines 178-185
  d.mapCols (fun c =>
    if c.dtype = .object ∧ ¬ date_columns.contains c.name then
      { c with cells :=
          c.cells.map (fun v => replace_text_markers (astype_str_cell (fill_cell (.str "") v))) }
    else c)

-- ### `DataProcessor._optimize_for_production` (lines 37-102, data effects)

/-- `_optimize_for_production`: drop entirely-null columns (lines 54-57)
and convert low-cardinality object columns (`nunique/len < 0.3`) to
categorical dtype (lines 60-68).  The Streamlit messages, session-state
cleanup and garbage collection have no effect on the data. -/
def optimize_for_production (df : DF) : DF :=
  let d : DF := ⟨df.cols.filter (fun c => ¬ c.cells.all (fun v => v = Val.null))⟩
  d.mapCols (fun c =>
    if c.dtype = .object ∧ (c.nunique : ℚ) / (d.numRows : ℚ) < 3 / 10 then
      { c with dtype := .category }
    else c)

-- ### A fused, per-column view of `process_data` (used by the proofs)

/-- The pointwise effect of the three `replace` calls on lines 147-149. -/
def repl3cell (v : Val) : Val :=
  if v = .str "" then .null
  else if v = .str " " then .null
  else if v = .str "nan" then .null
  else v

/-- Per-column effect of lines 147-158 (marker clearing + date parsing). -/
def colStep1 (c : Col) : Col :=
  if date_columns.contains c.name then
    ⟨c.name, .datetime, (c.cells.map repl3cell).map to_datetime_cell⟩
  else { c with cells := c.cells.map repl3cell }

/-- The cleaning applied to one text cell on lines 181-185. -/
def text_clean_cell (v : Val) : Val :=
  replace_text_markers (astype_str_cell (fill_cell (.str "") v))

/-- Per-column effect of lines 164-185 (critical numeric coercion, numeric
zero-fill, text cleaning). -/
def colStep2 (c : Col) : Col :=
  if critical_numeric_columns.contains c.name then
    ⟨c.name, .numeric,
      (((c.cells.map to_numeric_cell).map (fill_cell (.num 0))).map (fill_cell (.num 0)))⟩
  else if c.dtype = .numeric then
    { c with cells := c.cells.map (fill_cell (.num 0)) }
  else if c.dtype = .object ∧ ¬ date_columns.contains c.name then
    { c with cells := c.cells.map text_clean_cell }
  else c

/-- The `year` insertion of lines 161-162, on a raw column list. -/
def yearAdjust (cols : List Col) : List Col :=
  match (DF.mk cols).findCol "fecha_inspeccion" with
  | none => cols
  | some fc =>
    let yc := fc.cells.map year_cell
    if (DF.mk cols).hasCol "year" then
      cols.map (fun c => if c.name = "year" then ⟨"year", .numeric, yc⟩ else c)
    else cols ++ [⟨"year", .numeric, yc⟩]

theorem colStep1_name (c : Col) : (colStep1 c).name = c.name := by
  unfold colStep1; split <;> rfl

theorem colStep2_name (c : Col) : (colStep2 c).name = c.name := by
  unfold colStep2
  split
  · rfl
  · split
    · rfl
    · split <;> rfl

theorem repl3cell_spec (v : Val) :
    (fun w => if w = Val.str "nan" then Val.null else w)
      ((fun w => if w = Val.str " " then Val.null else w)
        ((fun w => if w = Val.str "" then Val.null else w) v)) = repl3cell v := by
  unfold repl3cell
  split_ifs with h1 h2 h3 <;> simp_all

theorem repl3cell_ifs (v : Val) :
    (if (if (if v = Val.str "" then Val.null else v) = Val.str " " then Val.null
         else if v = Val.str "" then Val.null else v) = Val.str "nan" then Val.null
     else if (if v = Val.str "" then Val.null else v) = Val.str " " then Val.null
          else if v = Val.str "" then Val.null else v) = repl3cell v := by
  unfold repl3cell
  split_ifs <;> simp_all

theorem colStep1_fuse :
    ((fun c : Col => if date_columns.contains c.name then
        ⟨c.name, DType.datetime, c.cells.map to_datetime_cell⟩
      else c) ∘
     (fun c : Col =>
        { c with cells := c.cells.map (fun v => if v = Val.str "nan" then Val.null else v) }) ∘
     (fun c : Col =>
        { c with cells := c.cells.map (fun v => if v = Val.str " " then Val.null else v) }) ∘
     (fun c : Col =>
        { c with cells := c.cells.map (fun v => if v = Val.str "" then Val.null else v) }))
    = colStep1 := by
  funext c
  simp only [Function.comp_apply]
  unfold colStep1
  split
  · congr 1
    simp only [List.map_map]
    apply List.map_congr_left
    intro v _
    simp only [Function.comp_apply]
    exact congrArg to_datetime_cell (repl3cell_ifs v)
  · congr 1
    simp only [List.map_map]
    apply List.map_congr_left
    intro v _
    simp only [Function.comp_apply]
    exact repl3cell_ifs v

theorem colStep2_fuse :
    ((fun c : Col => if c.dtype = DType.object ∧ ¬ date_columns.contains c.name then
        { c with
          cells := c.cells.map (fun v => replace_text_markers (astype_str_cell (fill_cell (.str "") v))) }
      else c) ∘
     (fun c : Col => if c.dtype = DType.numeric then
        { c with cells := c.cells.map (fill_cell (.num 0)) }
      else c) ∘
     (fun c : Col => if critical_numeric_columns.contains c.name then
        ⟨c.name, DType.numeric, c.cells.map (fill_cell (.num 0) ∘ to_numeric_cell)⟩
      else c))
    = colStep2 := by
  funext c
  simp only [Function.comp_apply]
  unfold colStep2
  by_cases h1 : c.name ∈ critical_numeric_columns
  · simp [h1, text_clean_cell]
  · by_cases h2 : c.dtype = DType.numeric
    · simp [h1, h2]
    · by_cases h3 : c.dtype = DType.object
      · by_cases h4 : c.name ∈ date_columns
        · simp [h1, h2, h3, h4]
        · simp [h1, h2, h3, h4, text_clean_cell]
      · simp [h1, h2, h3]

/-- `process_data` acts column by column: marker/date step, `year`
insertion, then numeric/text step. -/
theorem process_data_eq_fused (df : DF) :
    process_data df = ⟨(yearAdjust (df.cols.map colStep1)).map colStep2⟩ := by
  unfold process_data yearAdjust DF.setCol DF.replace DF.mapCols
  simp only [List.map_map]
  rw [colStep1_fuse, colStep2_fuse]
  cases hfc : DF.findCol ⟨List.map colStep1 df.cols⟩ "fecha_inspeccion" with
  | none => rfl
  | some fc =>
    by_cases hy : DF.hasCol ⟨List.map colStep1 df.cols⟩ "year"
    · simp [hy]
    · simp [hy]


-- ### Idempotence of `process_data` (cell level)

theorem dc_not_crit : ∀ n ∈ date_columns, n ∉ critical_numeric_columns := by decide

theorem to_datetime_cell_range (v : Val) :
    to_datetime_cell v = .null ∨ ∃ y m d, to_datetime_cell v = .date y m d := by
  cases v with
  | null => exact Or.inl rfl
  | str s =>
    simp only [to_datetime_cell]
    cases h : parseDateStr s with
    | none => exact Or.inl rfl
    | some t =>
      obtain ⟨y, m, d⟩ := t
      exact Or.inr ⟨y, m, d, rfl⟩
  | num q => exact Or.inl rfl
  | date y m d => exact Or.inr ⟨y, m, d, rfl⟩

theorem repl3cell_fix_td (v : Val) :
    repl3cell (to_datetime_cell v) = to_datetime_cell v := by
  rcases to_datetime_cell_range v with h | ⟨y, m, d, h⟩ <;> rw [h] <;> simp [repl3cell]

theorem td_idem (v : Val) :
    to_datetime_cell (to_datetime_cell v) = to_datetime_cell v := by
  rcases to_datetime_cell_range v with h | ⟨y, m, d, h⟩ <;> rw [h] <;> rfl

theorem repl3cell_cases (v : Val) :
    repl3cell v = .null ∨
      (repl3cell v = v ∧ v ≠ .null ∧ v ≠ .str "" ∧ v ≠ .str " " ∧ v ≠ .str "nan") := by
  cases v with
  | null => exact Or.inl rfl
  | str s =>
    by_cases h1 : s = ""
    · subst h1; exact Or.inl rfl
    · by_cases h2 : s = " "
      · subst h2; exact Or.inl rfl
      · by_cases h3 : s = "nan"
        · subst h3; exact Or.inl rfl
        · exact Or.inr ⟨by simp [repl3cell, h1, h2, h3], by simp, by simp [h1], by simp [h2],
            by simp [h3]⟩
  | num q => exact Or.inr ⟨by simp [repl3cell], by simp, by simp, by simp, by simp⟩
  | date y m d => exact Or.inr ⟨by simp [repl3cell], by simp, by simp, by simp, by simp⟩

theorem fill0_toNum_num (v : Val) :
    ∃ q, fill_cell (.num 0) (to_numeric_cell v) = .num q := by
  cases v with
  | null => exact ⟨0, rfl⟩
  | str s =>
    simp only [to_numeric_cell]
    cases h : parseNumStr s with
    | none => exact ⟨0, rfl⟩
    | some q => exact ⟨q, rfl⟩
  | num q => exact ⟨q, rfl⟩
  | date y m d => exact ⟨0, rfl⟩

theorem numfill_fix (v : Val) :
    repl3cell (fill_cell (.num 0) (repl3cell v)) = fill_cell (.num 0) (repl3cell v) ∧
    fill_cell (.num 0) (fill_cell (.num 0) (repl3cell v)) = fill_cell (.num 0) (repl3cell v) := by
  rcases repl3cell_cases v with h | ⟨h, hnull, h1, h2, h3⟩
  · rw [h]
    exact ⟨by simp [fill_cell, repl3cell], by simp [fill_cell]⟩
  · rw [h]
    have hv : fill_cell (.num 0) v = v := by
      cases v <;> simp_all [fill_cell]
    rw [hv, h, hv]
    exact ⟨rfl, rfl⟩

theorem text_clean_repl3_str (s : String) :
    text_clean_cell (repl3cell (.str s)) =
      if s = "" ∨ s = " " ∨ s = "nan" ∨ s = "NaN" ∨ s = "None" then .str "" else .str s := by
  unfold text_clean_cell repl3cell fill_cell astype_str_cell replace_text_markers
  split_ifs <;> simp_all

theorem text_clean_repl3_range (v : Val) :
    ∃ s, text_clean_cell (repl3cell v) = .str s ∧
      (s = "" ∨ (s ≠ "" ∧ s ≠ " " ∧ s ≠ "nan" ∧ s ≠ "NaN" ∧ s ≠ "None")) := by
  cases v with
  | null => exact ⟨"", rfl, Or.inl rfl⟩
  | str s =>
    rw [text_clean_repl3_str]
    by_cases h : s = "" ∨ s = " " ∨ s = "nan" ∨ s = "NaN" ∨ s = "None"
    · exact ⟨"", by rw [if_pos h], Or.inl rfl⟩
    · push_neg at h
      exact ⟨s, by rw [if_neg (by tauto)], Or.inr ⟨h.1, h.2.1, h.2.2.1, h.2.2.2.1, h.2.2.2.2⟩⟩
  | num q =>
    have hv : text_clean_cell (repl3cell (.num q)) = replace_text_markers (.str (ratStr q)) := by
      simp [repl3cell, text_clean_cell, fill_cell, astype_str_cell]
    by_cases h : ratStr q = "nan" ∨ ratStr q = "NaN" ∨ ratStr q = "None"
    · exact ⟨"", by rw [hv]; simp [replace_text_markers, h], Or.inl rfl⟩
    · push_neg at h
      by_cases he : ratStr q = ""
      · refine ⟨"", ?_, Or.inl rfl⟩
        rw [hv]
        simp only [replace_text_markers]
        rw [if_neg (by tauto), he]
      · refine ⟨ratStr q, ?_, Or.inr ⟨he, ratStr_ne_space q, h.1, h.2.1, h.2.2⟩⟩
        rw [hv]
        simp only [replace_text_markers]
        rw [if_neg (by tauto)]
  | date y m d =>
    have hv : text_clean_cell (repl3cell (.date y m d))
        = replace_text_markers (.str (dateRepr y m d)) := by
      simp [repl3cell, text_clean_cell, fill_cell, astype_str_cell]
    by_cases h : dateRepr y m d = "nan" ∨ dateRepr y m d = "NaN" ∨ dateRepr y m d = "None"
    · exact ⟨"", by rw [hv]; simp [replace_text_markers, h], Or.inl rfl⟩
    · push_neg at h
      by_cases he : dateRepr y m d = ""
      · refine ⟨"", ?_, Or.inl rfl⟩
        rw [hv]
        simp only [replace_text_markers]
        rw [if_neg (by tauto), he]
      · refine ⟨dateRepr y m d, ?_, Or.inr ⟨he, dateRepr_ne_space y m d, h.1, h.2.1, h.2.2⟩⟩
        rw [hv]
        simp only [replace_text_markers]
        rw [if_neg (by tauto)]

theorem text_clean_repl3_idem (v : Val) :
    text_clean_cell (repl3cell (text_clean_cell (repl3cell v)))
      = text_clean_cell (repl3cell v) := by
  obtain ⟨s, hs, hcase⟩ := text_clean_repl3_range v
  rw [hs, text_clean_repl3_str]
  rcases hcase with h | ⟨h1, h2, h3, h4, h5⟩
  · rw [if_pos (Or.inl h), h]
  · rw [if_neg (by tauto)]

-- ### Idempotence of `process_data` (column and table level)

theorem map_fix {α : Type} (f : α → α) (l : List α) (h : ∀ x ∈ l, f x = x) :
    l.map f = l :=
  (List.map_congr_left h).trans (List.map_id l)

theorem repl3cell_idem (v : Val) : repl3cell (repl3cell v) = repl3cell v := by
  rcases repl3cell_cases v with h | ⟨h, _, _, _, _⟩
  · rw [h]; rfl
  · rw [h]; exact h

theorem td_map_fix (X : List Val) :
    ((X.map to_datetime_cell).map repl3cell).map to_datetime_cell
      = X.map to_datetime_cell := by
  simp only [List.map_map]
  apply List.map_congr_left
  intro x _
  simp only [Function.comp_apply]
  rw [repl3cell_fix_td, td_idem]

theorem findCol_map (f : Col → Col) (hf : ∀ c, (f c).name = c.name)
    (cols : List Col) (n : String) :
    DF.findCol ⟨cols.map f⟩ n = (DF.findCol ⟨cols⟩ n).map f := by
  unfold DF.findCol
  induction cols with
  | nil => rfl
  | cons c cs ih =>
    simp only [List.map_cons, List.find?]
    by_cases h : c.name = n
    · rw [show (decide ((f c).name = n)) = true by simp [hf, h],
          show (decide (c.name = n)) = true by simp [h]]
      rfl
    · rw [show (decide ((f c).name = n)) = false by simp [hf, h],
          show (decide (c.name = n)) = false by simp [h]]
      exact ih

theorem hasCol_map (f : Col → Col) (hf : ∀ c, (f c).name = c.name)
    (cols : List Col) (n : String) :
    DF.hasCol ⟨cols.map f⟩ n = DF.hasCol ⟨cols⟩ n := by
  unfold DF.hasCol
  rw [findCol_map f hf]
  cases DF.findCol ⟨cols⟩ n <;> rfl

theorem not_hasCol_names (cols : List Col) (n : String)
    (h : ¬ DF.hasCol ⟨cols⟩ n = true) : ∀ c ∈ cols, c.name ≠ n := by
  intro c hc he
  apply h
  unfold DF.hasCol DF.findCol
  cases hfind : List.find? (fun c : Col => decide (c.name = n)) cols with
  | some x => rfl
  | none =>
    rw [List.find?_eq_none] at hfind
    exact absurd (by simp [he] : (decide (c.name = n)) = true) (by simpa using hfind c hc)

theorem colStep2_datetime (n : String) (L : List Val)
    (hcrit : n ∉ critical_numeric_columns) :
    colStep2 ⟨n, .datetime, L⟩ = ⟨n, .datetime, L⟩ := by
  simp [colStep2, hcrit]

/-- The per-column pipeline step is idempotent. -/
theorem colStep_idem (c : Col) :
    colStep2 (colStep1 (colStep2 (colStep1 c))) = colStep2 (colStep1 c) := by
  by_cases hdc : c.name ∈ date_columns
  · -- date-named column: parsed cells are timestamps/nulls and stay fixed
    have hcrit : c.name ∉ critical_numeric_columns := dc_not_crit c.name hdc
    have h1 : colStep1 c
        = ⟨c.name, .datetime, (c.cells.map repl3cell).map to_datetime_cell⟩ := by
      simp [colStep1, hdc]
    rw [h1, colStep2_datetime _ _ hcrit]
    have h3 : colStep1 ⟨c.name, .datetime, (c.cells.map repl3cell).map to_datetime_cell⟩
        = ⟨c.name, .datetime, (c.cells.map repl3cell).map to_datetime_cell⟩ := by
      simp only [colStep1]
      rw [if_pos (by simpa using hdc)]
      rw [td_map_fix]
    rw [h3, colStep2_datetime _ _ hcrit]
  · -- non-date column
    have h1 : colStep1 c = { c with cells := c.cells.map repl3cell } := by
      simp [colStep1, hdc]
    by_cases hcr : c.name ∈ critical_numeric_columns
    · -- critical numeric column: all cells end up numeric and fixed
      have h2 : ∀ (L : List Val), colStep2 { c with cells := L }
          = ⟨c.name, .numeric, ((L.map to_numeric_cell).map (fill_cell (.num 0))).map
              (fill_cell (.num 0))⟩ := by
        intro L
        simp [colStep2, hcr]
      rw [h1, h2]
      have hnum : ∀ w ∈ ((((c.cells.map repl3cell).map to_numeric_cell).map
          (fill_cell (.num 0))).map (fill_cell (.num 0))), ∃ q, w = Val.num q := by
        intro w hw
        simp only [List.map_map, List.mem_map] at hw
        obtain ⟨x, _, rfl⟩ := hw
        simp only [Function.comp_apply]
        obtain ⟨q, hq⟩ := fill0_toNum_num (repl3cell x)
        rw [hq]
        exact ⟨q, rfl⟩
      have h4 : colStep1 ⟨c.name, .numeric, ((((c.cells.map repl3cell).map to_numeric_cell).map
          (fill_cell (.num 0))).map (fill_cell (.num 0)))⟩
          = ⟨c.name, .numeric, ((((c.cells.map repl3cell).map to_numeric_cell).map
            (fill_cell (.num 0))).map (fill_cell (.num 0)))⟩ := by
        simp only [colStep1]
        rw [if_neg (by simpa using hdc)]
        congr 1
        apply map_fix
        intro w hw
        obtain ⟨q, rfl⟩ := hnum w hw
        simp [repl3cell]
      rw [h4]
      simp only [colStep2]
      rw [if_pos (by simpa using hcr)]
      congr 1
      simp only [List.map_map]
      apply List.map_congr_left
      intro x _
      simp only [Function.comp_apply]
      obtain ⟨q, hq⟩ := fill0_toNum_num (repl3cell x)
      rw [hq]
      simp [fill_cell, to_numeric_cell]
    · -- non-critical: numeric fill, text cleaning, or untouched dtypes
      rw [h1]
      rcases hdt : c.dtype with _ | _ | _ | _
      · -- object dtype: text cleaning, idempotent cellwise
        have h2 : ∀ (L : List Val), colStep2 ⟨c.name, DType.object, L⟩
            = ⟨c.name, DType.object, L.map text_clean_cell⟩ := by
          intro L
          simp [colStep2, hcr, hdc]
        rw [h2]
        have h3 : colStep1 ⟨c.name, DType.object, (c.cells.map repl3cell).map text_clean_cell⟩
            = ⟨c.name, DType.object,
                ((c.cells.map repl3cell).map text_clean_cell).map repl3cell⟩ := by
          simp [colStep1, hdc]
        rw [h3, h2]
        congr 1
        simp only [List.map_map]
        apply List.map_congr_left
        intro v _
        simp only [Function.comp_apply]
        exact text_clean_repl3_idem v
      · -- numeric dtype: zero-fill, idempotent cellwise
        have h2 : ∀ (L : List Val), colStep2 ⟨c.name, DType.numeric, L⟩
            = ⟨c.name, DType.numeric, L.map (fill_cell (.num 0))⟩ := by
          intro L
          simp [colStep2, hcr]
        rw [h2]
        have h3 : colStep1 ⟨c.name, DType.numeric,
              (c.cells.map repl3cell).map (fill_cell (.num 0))⟩
            = ⟨c.name, DType.numeric,
                ((c.cells.map repl3cell).map (fill_cell (.num 0))).map repl3cell⟩ := by
          simp [colStep1, hdc]
        rw [h3, h2]
        congr 1
        simp only [List.map_map]
        apply List.map_congr_left
        intro v _
        simp only [Function.comp_apply]
        rw [(numfill_fix v).1, (numfill_fix v).2]
      · -- datetime dtype, not a date-named column: untouched by step 2
        have h2 : ∀ (L : List Val), colStep2 ⟨c.name, DType.datetime, L⟩
            = ⟨c.name, DType.datetime, L⟩ := by
          intro L
          simp [colStep2, hcr]
        rw [h2]
        have h3 : colStep1 ⟨c.name, DType.datetime, c.cells.map repl3cell⟩
            = ⟨c.name, DType.datetime, (c.cells.map repl3cell).map repl3cell⟩ := by
          simp [colStep1, hdc]
        rw [h3, h2]
        congr 1
        simp only [List.map_map]
        apply List.map_congr_left
        intro v _
        exact repl3cell_idem v
      · -- category dtype: untouched by step 2
        have h2 : ∀ (L : List Val), colStep2 ⟨c.name, DType.category, L⟩
            = ⟨c.name, DType.category, L⟩ := by
          intro L
          simp [colStep2, hcr]
        rw [h2]
        have h3 : colStep1 ⟨c.name, DType.category, c.cells.map repl3cell⟩
            = ⟨c.name, DType.category, (c.cells.map repl3cell).map repl3cell⟩ := by
          simp [colStep1, hdc]
        rw [h3, h2]
        congr 1
        simp only [List.map_map]
        apply List.map_congr_left
        intro v _
        exact repl3cell_idem v

theorem cs2_yearcol (L : List Val) :
    colStep2 ⟨"year", .numeric, L⟩ = ⟨"year", .numeric, L.map (fill_cell (.num 0))⟩ := by
  simp [colStep2, (by decide : "year" ∉ critical_numeric_columns)]

theorem cs1_yearcol (L : List Val) :
    colStep1 ⟨"year", .numeric, L⟩ = ⟨"year", .numeric, L.map repl3cell⟩ := by
  simp [colStep1, (by decide : "year" ∉ date_columns)]

theorem cs2_fechacol (X : List Val) :
    colStep2 ⟨"fecha_inspeccion", .datetime, X⟩ = ⟨"fecha_inspeccion", .datetime, X⟩ :=
  colStep2_datetime _ _ (by decide)

theorem cs1_fechacol (X : List Val) :
    colStep1 ⟨"fecha_inspeccion", .datetime, X.map to_datetime_cell⟩
      = ⟨"fecha_inspeccion", .datetime, X.map to_datetime_cell⟩ := by
  simp only [colStep1]
  rw [if_pos (by decide)]
  rw [td_map_fix]

set_option maxHeartbeats 1000000 in
/-- Re-running `process_data` on its own output changes nothing. -/
theorem process_data_idem (df : DF) :
    process_data (process_data df) = process_data df := by
  rw [process_data_eq_fused df, process_data_eq_fused]
  cases hfc : DF.findCol ⟨df.cols.map colStep1⟩ "fecha_inspeccion" with
  | none =>
    have hY : yearAdjust (df.cols.map colStep1) = df.cols.map colStep1 := by
      rw [yearAdjust, hfc]
    rw [hY]
    have hbase : DF.findCol ⟨df.cols⟩ "fecha_inspeccion" = none := by
      have h := hfc
      rw [findCol_map _ colStep1_name] at h
      exact Option.map_eq_none'.mp h
    have hfc2 : DF.findCol ⟨((df.cols.map colStep1).map colStep2).map colStep1⟩
        "fecha_inspeccion" = none := by
      rw [findCol_map _ colStep1_name, findCol_map _ colStep2_name,
          findCol_map _ colStep1_name, hbase]
      rfl
    have hY2 : yearAdjust (((df.cols.map colStep1).map colStep2).map colStep1)
        = ((df.cols.map colStep1).map colStep2).map colStep1 := by
      rw [yearAdjust, hfc2]
    rw [hY2]
    simp only [List.map_map]
    congr 1
    apply List.map_congr_left
    intro c _
    exact colStep_idem c
  | some fc =>
    -- extract the original fecha_inspeccion column
    have hfc' := hfc
    rw [findCol_map _ colStep1_name] at hfc'
    obtain ⟨c0, hc0, hfc0⟩ := Option.map_eq_some'.mp hfc'
    have hc0name : c0.name = "fecha_inspeccion" := by
      have h := List.find?_some hc0
      simpa using h
    have hfcform : fc = ⟨"fecha_inspeccion", .datetime,
        (c0.cells.map repl3cell).map to_datetime_cell⟩ := by
      rw [← hfc0]
      simp [colStep1, hc0name, (by decide : "fecha_inspeccion" ∈ date_columns)]
    have hfcname : fc.name = "fecha_inspeccion" := by rw [hfcform]
    have hfix2 : colStep2 fc = fc := by rw [hfcform]; exact cs2_fechacol _
    have hfix1 : colStep1 fc = fc := by rw [hfcform]; exact cs1_fechacol _
    have hYdef : yearAdjust (df.cols.map colStep1)
        = if DF.hasCol ⟨df.cols.map colStep1⟩ "year" then
            (df.cols.map colStep1).map
              (fun c => if c.name = "year" then ⟨"year", .numeric, fc.cells.map year_cell⟩ else c)
          else df.cols.map colStep1 ++ [⟨"year", .numeric, fc.cells.map year_cell⟩] := by
      rw [yearAdjust, hfc]
    have how_name : ∀ c : Col,
        ((fun c => if c.name = "year" then
            (⟨"year", .numeric, fc.cells.map year_cell⟩ : Col) else c) c).name = c.name := by
      intro c
      by_cases h : c.name = "year"
      · simp [h]
      · simp [h]
    have hyy : colStep2
        ((fun c => if c.name = "year" then
            (⟨"year", .numeric, fc.cells.map year_cell⟩ : Col) else c)
          (colStep1 (colStep2 ⟨"year", .numeric, fc.cells.map year_cell⟩)))
        = colStep2 ⟨"year", .numeric, fc.cells.map year_cell⟩ := by
      conv_lhs => rw [cs2_yearcol, cs1_yearcol]
      have hif : ((fun c : Col => if c.name = "year" then
          (⟨"year", .numeric, fc.cells.map year_cell⟩ : Col) else c)
          ⟨"year", .numeric,
            ((fc.cells.map year_cell).map (fill_cell (.num 0))).map repl3cell⟩)
          = (⟨"year", .numeric, fc.cells.map year_cell⟩ : Col) := by
        simp
      rw [hif]
    by_cases hy : DF.hasCol ⟨df.cols.map colStep1⟩ "year"
    · -- a `year` column already existed: it is overwritten in place
      rw [hYdef, if_pos hy]
      have hfcA : DF.findCol ⟨((((df.cols.map colStep1).map
          (fun c => if c.name = "year" then
            (⟨"year", .numeric, fc.cells.map year_cell⟩ : Col) else c)).map colStep2).map
            colStep1)⟩ "fecha_inspeccion" = some fc := by
        rw [findCol_map _ colStep1_name, findCol_map _ colStep2_name,
            findCol_map _ how_name, findCol_map _ colStep1_name, hc0]
        simp only [Option.map_some']
        rw [hfc0, if_neg (by rw [hfcname]; decide), hfix2, hfix1]
      have hyA : DF.hasCol ⟨((((df.cols.map colStep1).map
          (fun c => if c.name = "year" then
            (⟨"year", .numeric, fc.cells.map year_cell⟩ : Col) else c)).map colStep2).map
            colStep1)⟩ "year" = true := by
        rw [hasCol_map _ colStep1_name, hasCol_map _ colStep2_name,
            hasCol_map _ how_name]
        exact hy
      have hfcA2 : fc.cells.map year_cell = fc.cells.map year_cell := rfl
      rw [yearAdjust, hfcA]
      simp only [hyA, if_pos]
      simp only [List.map_map]
      congr 1
      apply List.map_congr_left
      intro c _
      simp only [Function.comp_apply]
      by_cases hn : c.name = "year"
      · have h1 : (colStep1 c).name = "year" := by rw [colStep1_name]; exact hn
        rw [if_pos h1]
        exact hyy
      · have h1 : (colStep1 c).name ≠ "year" := by rw [colStep1_name]; exact hn
        rw [if_neg h1]
        have h2 : (colStep1 (colStep2 (colStep1 c))).name ≠ "year" := by
          rw [colStep1_name, colStep2_name, colStep1_name]; exact hn
        rw [if_neg h2]
        exact colStep_idem c
    · -- no `year` column yet: it is appended, and found on the second run
      rw [hYdef, if_neg hy]
      have hybase : ∀ c ∈ df.cols.map colStep1, c.name ≠ "year" :=
        not_hasCol_names _ _ hy
      simp only [List.map_append, List.map_cons, List.map_nil]
      have hleft : DF.findCol ⟨((df.cols.map colStep1).map colStep2).map colStep1⟩
          "fecha_inspeccion" = some fc := by
        rw [findCol_map _ colStep1_name, findCol_map _ colStep2_name,
            findCol_map _ colStep1_name, hc0]
        simp only [Option.map_some']
        rw [hfc0, hfix2, hfix1]
      have hfcA : DF.findCol ⟨(((df.cols.map colStep1).map colStep2).map colStep1)
          ++ [colStep1 (colStep2 ⟨"year", .numeric, fc.cells.map year_cell⟩)]⟩
          "fecha_inspeccion" = some fc := by
        unfold DF.findCol
        rw [List.find?_append]
        have hleft' : List.find? (fun c : Col => decide (c.name = "fecha_inspeccion"))
            (((df.cols.map colStep1).map colStep2).map colStep1) = some fc := hleft
        rw [hleft']
        rfl
      have hyA : DF.hasCol ⟨(((df.cols.map colStep1).map colStep2).map colStep1)
          ++ [colStep1 (colStep2 ⟨"year", .numeric, fc.cells.map year_cell⟩)]⟩
          "year" = true := by
        unfold DF.hasCol DF.findCol
        rw [List.find?_append]
        have hname : (colStep1 (colStep2
            (⟨"year", .numeric, fc.cells.map year_cell⟩ : Col))).name = "year" := by
          rw [colStep1_name, colStep2_name]
        have hsnd : List.find? (fun c : Col => decide (c.name = "year"))
            [colStep1 (colStep2 ⟨"year", .numeric, fc.cells.map year_cell⟩)]
            = some (colStep1 (colStep2 ⟨"year", .numeric, fc.cells.map year_cell⟩)) := by
          simp [List.find?, hname]
        rw [hsnd]
        cases List.find? (fun c : Col => decide (c.name = "year"))
            (((df.cols.map colStep1).map colStep2).map colStep1) <;> rfl
      rw [yearAdjust, hfcA]
      simp only [hyA, if_pos]
      simp only [List.map_append, List.map_cons, List.map_nil, List.map_map]
      congr 1
      congr 1
      apply List.map_congr_left
      intro c hc
      simp only [Function.comp_apply]
      have hn : c.name ≠ "year" := by
        have h := hybase (colStep1 c) (List.mem_map_of_mem _ hc)
        rwa [colStep1_name] at h
      have h2 : (colStep1 (colStep2 (colStep1 c))).name ≠ "year" := by
        rw [colStep1_name, colStep2_name, colStep1_name]; exact hn
      rw [if_neg h2]
      exact colStep_idem c


-- ### `SectorSimilarityDetector` (sector_similarity.py)

/-- Python word characters (ASCII fragment of `\w`). -/
def isWordChar (c : Char) : Bool := c.isAlphanum || c = '_'

/-- Collapse each maximal whitespace run to a single space
(`re.sub(r'\s+', ' ', ...)`). -/
def collapseWs : List Char → List Char
  | [] => []
  | c :: rest =>
    if c.isWhitespace then
      match rest with
      | r :: _ => if r.isWhitespace then collapseWs rest else ' ' :: collapseWs rest
      | [] => [' ']
    else c :: collapseWs rest

/-- Python `str.strip()` on the char-list model. -/
def pyStrip (s : String) : String :=
  ⟨(((s.data.dropWhile Char.isWhitespace).reverse).dropWhile Char.isWhitespace).reverse⟩

/-- Python `str.upper()` on the char-list model (ASCII as in the data). -/
def pyUpper (s : String) : String := ⟨s.data.map Char.toUpper⟩

/-- `normalize_sector_name` (lines 22-36): strip, uppercase, remove
punctuation (keep word characters and whitespace), collapse whitespace. -/
def normalize_sector_name (sector_name : String) : String :=
  if sector_name = "" then ""
  else
    let sector := pyUpper (pyStrip sector_name)
    let sector := sector.data.filter (fun c => isWordChar c || c.isWhitespace)
    ⟨collapseWs sector⟩

-- `difflib.SequenceMatcher` (used on the normalized names).  The junk
-- machinery is the autojunk rule only (no isjunk function is supplied):
-- when `len(b) >= 200`, characters occurring in more than `len(b)/100 + 1`
-- positions of `b` are dropped from the index.  The two junk-extension
-- loops of `find_longest_match` never fire (the junk set is empty) and are
-- omitted.

/-- Occurrence positions of `c` in `b` (the `b2j` index of difflib). -/
def b2jList (b : List Char) (c : Char) : List Nat :=
  (List.range b.length).filter (fun j => b.getD j ' ' = c)

/-- The autojunk rule: with `len(b) >= 200`, characters filling more than
`len(b)/100 + 1` positions are removed from the index. -/
def b2j (b : List Char) (c : Char) : List Nat :=
  let idxs := b2jList b c
  if b.length ≥ 200 ∧ idxs.length > b.length / 100 + 1 then [] else idxs

/-- Assoc-list update used for difflib's `j2len` dictionaries. -/
def assocPut (m : List (Nat × Nat)) (k v : Nat) : List (Nat × Nat) :=
  (k, v) :: m.filter (fun p => p.1 ≠ k)

def assocGetD (m : List (Nat × Nat)) (k : Nat) (d : Nat) : Nat :=
  match m.find? (fun p => p.1 = k) with
  | some p => p.2
  | none => d

/-- The inner j-loop of `find_longest_match`. -/
def flmInner (j2len : List (Nat × Nat)) (blo bhi i : Nat) :
    List Nat → (List (Nat × Nat)) × (Nat × Nat × Nat) → (List (Nat × Nat)) × (Nat × Nat × Nat)
  | [], st => st
  | j :: js, (newj2len, best) =>
    if j < blo then flmInner j2len blo bhi i js (newj2len, best)
    else if j ≥ bhi then (newj2len, best)
    else
      let k := (if j = 0 then 0 else assocGetD j2len (j - 1) 0) + 1
      let newj2len := assocPut newj2len j k
      let best := if k > best.2.2 then (i + 1 - k, j + 1 - k, k) else best
      flmInner j2len blo bhi i js (newj2len, best)

/-- The i-loop of `find_longest_match`. -/
def flmOuter (a b : List Char) (blo bhi : Nat) :
    List Nat → (List (Nat × Nat)) × (Nat × Nat × Nat) → (List (Nat × Nat)) × (Nat × Nat × Nat)
  | [], st => st
  | i :: is, (j2len, best) =>
    let (newj2len, best) := flmInner j2len blo bhi i (b2j b (a.getD i ' ')) ([], best)
    flmOuter a b blo bhi is (newj2len, best)

/-- Backward extension of the best block over equal characters. -/
def flmExtBack (a b : List Char) (alo blo : Nat) :
    Nat → Nat × Nat × Nat → Nat × Nat × Nat
  | 0, st => st
  | fuel + 1, (besti, bestj, bestsize) =>
    if besti > alo ∧ bestj > blo ∧ a.getD (besti - 1) ' ' = b.getD (bestj - 1) ' ' then
      flmExtBack a b alo blo fuel (besti - 1, bestj - 1, bestsize + 1)
    else (besti, bestj, bestsize)

/-- Forward extension of the best block over equal characters. -/
def flmExtFwd (a b : List Char) (ahi bhi : Nat) :
    Nat → Nat × Nat × Nat → Nat × Nat × Nat
  | 0, st => st
  | fuel + 1, (besti, bestj, bestsize) =>
    if besti + bestsize < ahi ∧ bestj + bestsize < bhi ∧
        a.getD (besti + bestsize) ' ' = b.getD (bestj + bestsize) ' ' then
      flmExtFwd a b ahi bhi fuel (besti, bestj, bestsize + 1)
    else (besti, bestj, bestsize)

/-- `SequenceMatcher.find_longest_match` over `a[alo:ahi]`, `b[blo:bhi]`. -/
def find_longest_match (a b : List Char) (alo ahi blo bhi : Nat) : Nat × Nat × Nat :=
  let st := flmOuter a b blo bhi ((List.range ahi).drop alo) ([], (alo, blo, 0))
  let best := flmExtBack a b alo blo st.2.1 st.2
  flmExtFwd a b ahi bhi ahi best

/-- Total size of all matching blocks (the recursion of
`get_matching_blocks`, summed); `fuel` bounds the recursion depth. -/
def matchingSize (a b : List Char) : Nat → Nat → Nat → Nat → Nat → Nat
  | 0, _, _, _, _ => 0
  | fuel + 1, alo, ahi, blo, bhi =>
    let (i, j, k) := find_longest_match a b alo ahi blo bhi
    if k = 0 then 0
    else matchingSize a b fuel alo i blo j + k + matchingSize a b fuel (i + k) ahi (j + k) bhi

/-- `SequenceMatcher(None, a, b).ratio() = 2*M/T` (1.0 when both strings
are empty). -/
def sequenceMatcherRatio (a b : List Char) : ℚ :=
  let total := a.length + b.length
  if total = 0 then 1
  else 2 * (matchingSize a b (a.length + b.length + 1) 0 a.length 0 b.length : ℚ) / (total : ℚ)

/-- `calculate_similarity` (lines 38-49): 0 for falsy inputs, 1.0 for
equal normalized forms, else the sequence-matcher ratio. -/
def calculate_similarity (sector1 sector2 : String) : ℚ :=
  if sector1 = "" ∨ sector2 = "" then 0
  else
    let norm1 := normalize_sector_name sector1
    let norm2 := normalize_sector_name sector2
    if norm1 = norm2 then 1
    else sequenceMatcherRatio norm1.data norm2.data

/-- Python `min(group, key=len)`: the first member of minimal length. -/
def pyMinLen (x : String) (xs : List String) : String :=
  xs.foldl (fun best s => if s.length < best.length then s else best) x

/-- Python dict assignment `d[k] = v`: update in place, else append. -/
def assocSet (acc : List (String × List String)) (k : String) (g : List String) :
    List (String × List String) :=
  if acc.any (fun e => e.1 = k) then
    acc.map (fun e => if e.1 = k then (k, g) else e)
  else acc ++ [(k, g)]

/-- The inner loop of `find_similar_sectors` (lines 81-89): scan the rest
of the list, adding unprocessed sectors similar to `s1` to the group and
to the processed set. -/
def collectGroup (threshold : ℚ) (s1 : String) :
    List String → List String → List String × List String
  | [], processed => ([], processed)
  | s2 :: rest, processed =>
    if processed.contains s2 then collectGroup threshold s1 rest processed
    else if calculate_similarity s1 s2 ≥ threshold then
      let (g, p) := collectGroup threshold s1 rest (s2 :: processed)
      (s2 :: g, p)
    else collectGroup threshold s1 rest processed

/-- The outer loop of `find_similar_sectors` (lines 74-95). -/
def fssLoop (threshold : ℚ) :
    List String → List String → List (String × List String) →
      List (String × List String)
  | [], _, acc => acc
  | s1 :: rest, processed, acc =>
    if processed.contains s1 then fssLoop threshold rest processed acc
    else
      let (g, p) := collectGroup threshold s1 rest (s1 :: processed)
      let group := s1 :: g
      let acc := if group.length > 1 then assocSet acc (pyMinLen s1 g) group else acc
      fssLoop threshold rest p acc

/-- `find_similar_sectors` (lines 51-97): group names whose pairwise
similarity reaches the threshold; keys are the shortest member; only
groups of two or more are kept. -/
def find_similar_sectors (threshold : ℚ) (sectors_list : List String) :
    List (String × List String) :=
  let valid_sectors := sectors_list.filter (fun s => pyStrip s ≠ "")
  if valid_sectors.length < 2 then []
  else fssLoop threshold valid_sectors [] []

/-- `apply_unification` (lines 275-296): dictionary-replace the values of
one column; other columns and missing mappings are untouched. -/
def apply_unification (data : DF) (column_name : String)
    (unification_mapping : List (String × String)) : DF :=
  if unification_mapping.isEmpty || ¬ data.hasCol column_name then data
  else
    data.mapCols (fun c =>
      if c.name = column_name then
        { c with cells := c.cells.map (fun v =>
            match v with
            | .str s =>
              match unification_mapping.find? (fun p => p.1 = s) with
              | some p => .str p.2
              | none => .str s
            | v => v) }
      else c)

-- ### `DataProcessor.get_filtered_data` (data_processor.py lines 192-236)

/-- A Python value usable in a filter set: a scalar, a list (membership
filter), a by-province unification mapping, or a legacy flat mapping. -/
inductive FVal where
  | scalar (v : Val) : FVal
  | list (l : List Val) : FVal
  | mapByProv (m : List (String × List (String × String))) : FVal
  | mapFlat (m : List (String × String)) : FVal
  deriving DecidableEq

/-- Python truthiness of a filter value (`if value:`); a null scalar
models `None`. -/
def FVal.truthy : FVal → Bool
  | .scalar (.str s) => s ≠ ""
  | .scalar (.num q) => q ≠ 0
  | .scalar .null => false
  | .scalar (.date _ _ _) => true
  | .list l => ¬ l.isEmpty
  | .mapByProv m => ¬ m.isEmpty
  | .mapFlat m => ¬ m.isEmpty

/-- pandas elementwise `==` against a scalar: `NaN` never matches, types
must agree. -/
def pyEqCell (cell v : Val) : Bool :=
  match cell, v with
  | .str a, .str b => a = b
  | .num a, .num b => a = b
  | .date a b c, .date d e f => a = d ∧ b = e ∧ c = f
  | _, _ => false

/-- pandas `Series.isin(values)`: like `==` per candidate, except that a
null cell does match a null in the list. -/
def pyIsinCell (cell : Val) (l : List Val) : Bool :=
  l.any (fun v =>
    match cell, v with
    | .null, .null => true
    | _, _ => pyEqCell cell v)

/-- One cell against one filter value (used on cells of column `key`).
Comparing against a dict matches nothing. -/
def filterMatch (v : FVal) (cell : Val) : Bool :=
  match v with
  | .scalar s => pyEqCell cell s
  | .list l => pyIsinCell cell l
  | .mapByProv _ => false
  | .mapFlat _ => false

/-- The filter keys consumed by the unification step (line 227). -/
def unification_keys : List String :=
  ["sector_unification_mapping", "sector_unification_mapping_by_province"]

/-- An ordered filter set: a Python dict as an association list with
distinct keys, iterated in insertion order. -/
def Filters := List (String × FVal)

/-- Python dict lookup `filters[k]` / `k in filters`. -/
def fLookup (fs : List (String × FVal)) (k : String) : Option FVal :=
  (fs.find? (fun p => p.1 = k)).map Prod.snd

/-- Lines 196-208: per-province sector unification — for each province in
the mapping, rewrite the sector column of the rows of that province. -/
def applyByProvince (df : DF) (m : List (String × List (String × String))) : DF :=
  m.foldl (fun acc pm =>
    let province_mask := match acc.findCol "nombre_prov" with
      | some c => c.cells.map (fun v => pyEqCell v (.str pm.1))
      | none => []
    if province_mask.any id then
      let province_data := acc.maskFilter province_mask
      let province_data := apply_unification province_data "sector" pm.2
      acc.maskAssign province_mask province_data
    else acc) df

/-- Lines 196-216: the unification stage of `get_filtered_data`. -/
def unificationStage (df : DF) (filters : Option (List (String × FVal))) : DF :=
  match filters with
  | none => df
  | some fs =>
    match fLookup fs "sector_unification_mapping_by_province" with
    | some (.mapByProv m) =>
      if df.hasCol "sector" ∧ df.hasCol "nombre_prov" then
        if ¬ m.isEmpty then applyByProvince df m else df
      else df
    | _ =>
      match fLookup fs "sector_unification_mapping" with
      | some (.mapFlat m) =>
        if df.hasCol "sector" then
          if ¬ m.isEmpty then apply_unification df "sector" m else df
        else df
      | _ => df

/-- Lines 218-222: the activity-type filter; raises (`Except.error`) when
the activity column is missing. -/
def activityStage (df : DF) (activity_type : Option String) : Except Unit DF :=
  match activity_type with
  | none => .ok df
  | some at0 =>
    if at0 = "" then .ok df
    else
      match df.findCol "tipoActividadInspeccion" with
      | none => .error ()
      | some c =>
        .ok (df.maskFilter (c.cells.map (fun v =>
          match v with
          | .str s => s.toLower = at0.toLower
          | _ => false)))

/-- Lines 224-234: the remaining filters, in insertion order; falsy values
and unknown keys are skipped. -/
def filtersStage (df : DF) (fs : List (String × FVal)) : DF :=
  fs.foldl (fun acc kv =>
    if unification_keys.contains kv.1 then acc
    else if kv.2.truthy ∧ acc.hasCol kv.1 then
      acc.maskFilter (match acc.findCol kv.1 with
        | some c => c.cells.map (filterMatch kv.2)
        | none => [])
    else acc) df

/-- `get_filtered_data` (lines 192-236). -/
def get_filtered_data (df : DF) (activity_type : Option String)
    (filters : Option (List (String × FVal))) : Except Unit DF := do
  let d := unificationStage df filters
  let d ← activityStage d activity_type
  match filters with
  | none => return d
  | some fs => return filtersStage d fs

-- ### `CercoTab.calculate_cerco_effectiveness` (cerco_tab.py lines 701-736)

/-- One row of the effectiveness table built per facility. -/
structure CercoRow where
  cod_renipress : Val
  localidad_eess : Val
  total_houses : Nat
  positive_houses : Nat
  effectiveness_percentage : ℚ
  intervention_score : ℚ
  deriving DecidableEq, Repr

/-- `calculate_cerco_effectiveness`: per distinct facility value, count
attended houses (indicator in {1,2,3,4}), positive inspected houses
(positivity == 1 and indicator == 1), and the guarded percentage.
Missing columns raise (`Except.error`); an empty view yields `[]`. -/
def calculate_cerco_effectiveness (data : DF) : Except Unit (List CercoRow) :=
  if data.isEmpty then .ok []
  else
    match data.findCol "localidad_eess", data.findCol "cod_renipress",
          data.findCol "atencion_vivienda_indicador", data.findCol "viv_positiva" with
    | some lc, some cc, some ac, some vc =>
      .ok ((pdUnique false lc.cells).map (fun facility =>
        let mask := lc.cells.map (fun v => pyEqCell v facility)
        let renipress_code := (applyMask mask cc.cells).headD (.num 0)
        let total_houses := ((applyMask mask ac.cells).filter
          (fun v => pyIsinCell v [.num 1, .num 2, .num 3, .num 4])).length
        let positive_houses := (((applyMask mask vc.cells).zip (applyMask mask ac.cells)).filter
          (fun p => pyEqCell p.1 (.num 1) && pyEqCell p.2 (.num 1))).length
        let effectiveness : ℚ :=
          if total_houses > 0 then
            ((total_houses : ℚ) - (positive_houses : ℚ)) / (total_houses : ℚ) * 100
          else 0
        let intervention_score : ℚ :=
          min 10 (((total_houses : ℚ) / ((max 1 positive_houses : Nat) : ℚ)) * 2)
        ⟨renipress_code, facility, total_houses, positive_houses,
          effectiveness, intervention_score⟩))
    | _, _, _, _ => .error ()

-- ### `safe_dataframe` (table_helpers.py lines 11-130)

/-- What the render guard shows: nothing (empty input), the full table,
a truncated head slice, or only a structural summary. -/
inductive RenderResult where
  | noData : RenderResult
  | full : RenderResult
  | truncated (shown : Nat) : RenderResult
  | schemaOnly : RenderResult
  deriving DecidableEq, Repr

/-- Modelled from pandas `memory_usage(deep=True)`: a fixed per-cell cost
(8 bytes for numerics/dates/nulls, pointer plus object header plus
payload for strings). -/
def valBytes : Val → Nat
  | .num _ => 8
  | .date _ _ _ => 8
  | .null => 8
  | .str s => 8 + 49 + s.utf8ByteSize

def colBytes (c : Col) : Nat := (c.cells.map valBytes).sum

/-- Estimated in-memory size in bytes (index overhead plus columns). -/
def DF.memBytes (df : DF) : Nat := 128 + (df.cols.map colBytes).sum

/-- `df.memory_usage(deep=True).sum() / (1024 * 1024)`. -/
def DF.memMB (df : DF) : ℚ := (df.memBytes : ℚ) / (1024 * 1024)

/-- `df.head(n)`. -/
def DF.headDF (df : DF) (n : Nat) : DF :=
  df.mapCols (fun c => { c with cells := c.cells.take n })

/-- The geometric-shrink loop of lines 76-80: while the slice exceeds 90%
of the ceiling and more than the 50-row minimum is shown, multiply the
row count by 0.75.  The count strictly decreases, so `fuel := s` bounds
the iteration; the loop itself is the `while` of the source. -/
def shrinkLoop (df : DF) (max_memory_mb : ℚ) : Nat → Nat → Nat
  | 0, s => s
  | fuel + 1, s =>
    if (df.headDF s).memMB > max_memory_mb * (9 / 10) ∧ s > 50 then
      shrinkLoop df max_memory_mb fuel (max 50 (3 * s / 4))
    else s

/-- `safe_dataframe` (lines 11-130), reduced to its decision: which table
(if any) reaches `st.dataframe`. -/
def safe_dataframe (df : DF) (max_rows : Nat) (max_memory_mb : ℚ) : RenderResult :=
  if df.isEmpty then .noData
  else
    let memory_mb := df.memMB
    let total_rows := df.numRows
    if total_rows > max_rows ∨ memory_mb > max_memory_mb then
      let safe_row_count :=
        if memory_mb > max_memory_mb then
          min max_rows (max 1000 (max_memory_mb * (total_rows : ℚ) / memory_mb).floor.toNat)
        else max_rows
      let s := shrinkLoop df max_memory_mb safe_row_count safe_row_count
      if (df.headDF s).memMB > max_memory_mb * (9 / 10) then .schemaOnly
      else .truncated s
    else .full

-- ### `DataProcessor.get_unique_values` (data_processor.py lines 238-254)

/-- Pointwise conjunction of two masks. -/
def zipAnd (m1 m2 : List Bool) : List Bool := List.zipWith and m1 m2

theorem applyMask_replicate_true {A : Type} (l : List A) :
    applyMask (List.replicate l.length true) l = l := by
  induction l with
  | nil => rfl
  | cons x xs ih => simpa [List.replicate, applyMask] using ih

theorem applyMask_applyMask {A : Type} (m p : List Bool) (l : List A) :
    applyMask (applyMask m p) (applyMask m l) = applyMask (zipAnd m p) l := by
  induction m generalizing p l with
  | nil => cases p <;> cases l <;> simp [applyMask, zipAnd]
  | cons b ms ih =>
    cases p with
    | nil => cases l <;> cases b <;> simp [applyMask, zipAnd]
    | cons p0 ps =>
      cases l with
      | nil => cases b <;> cases p0 <;> simp [applyMask, zipAnd]
      | cons v vs =>
        cases b with
        | true =>
          cases p0 with
          | true => simpa [applyMask, zipAnd] using ih ps vs
          | false => simpa [applyMask, zipAnd] using ih ps vs
        | false => simpa [applyMask, zipAnd] using ih ps vs

theorem maskFilter_findCol (df : DF) (mask : List Bool) (n : String) :
    (df.maskFilter mask).findCol n
      = (df.findCol n).map (fun c => { c with cells := applyMask mask c.cells }) :=
  findCol_map (fun c => { c with cells := applyMask mask c.cells }) (fun _ => rfl) df.cols n

theorem maskFilter_hasCol (df : DF) (mask : List Bool) (n : String) :
    (df.maskFilter mask).hasCol n = df.hasCol n :=
  hasCol_map (fun c => { c with cells := applyMask mask c.cells }) (fun _ => rfl) df.cols n

theorem maskFilter_maskFilter (df : DF) (m p : List Bool) :
    (df.maskFilter m).maskFilter (applyMask m p) = df.maskFilter (zipAnd m p) := by
  unfold DF.maskFilter DF.mapCols
  simp only [List.map_map]
  congr 1
  apply List.map_congr_left
  intro c _
  simp only [Function.comp_apply]
  congr 1
  exact applyMask_applyMask m p c.cells

theorem maskFilter_replicate_true (df : DF) (hWf : df.Wf) :
    df.maskFilter (List.replicate df.numRows true) = df := by
  unfold DF.maskFilter DF.mapCols
  cases df with
  | mk cols =>
    congr 1
    apply map_fix
    intro c hc
    have hlen : c.cells.length = DF.numRows ⟨cols⟩ := hWf c hc
    have : applyMask (List.replicate (DF.numRows ⟨cols⟩) true) c.cells = c.cells := by
      rw [← hlen]
      exact applyMask_replicate_true c.cells
    rw [this]

/-- The single-filter body used by the conjunction form of the filter
stage, with masks taken on the original table. -/
def filterMaskOn (df : DF) (kv : String × FVal) : List Bool :=
  (df.findCol kv.1).elim [] (fun c => c.cells.map (filterMatch kv.2))

/-- The accumulated conjunction of all applicable filter masks. -/
def conjMask (df : DF) (fs : List (String × FVal)) : List Bool :=
  fs.foldl (fun m kv =>
    if ¬ unification_keys.contains kv.1 ∧ kv.2.truthy ∧ df.hasCol kv.1 then
      zipAnd m (filterMaskOn df kv)
    else m) (List.replicate df.numRows true)

theorem filtersStage_step (df : DF) (m : List Bool) (kv : String × FVal) :
    (if unification_keys.contains kv.1 then df.maskFilter m
     else if kv.2.truthy ∧ (df.maskFilter m).hasCol kv.1 then
       (df.maskFilter m).maskFilter (match (df.maskFilter m).findCol kv.1 with
         | some c => c.cells.map (filterMatch kv.2)
         | none => [])
     else df.maskFilter m)
    = df.maskFilter (if ¬ unification_keys.contains kv.1 ∧ kv.2.truthy ∧ df.hasCol kv.1 then
        zipAnd m (filterMaskOn df kv)
      else m) := by
  by_cases h1 : kv.1 ∈ unification_keys
  · simp [h1]
  · by_cases h2 : kv.2.truthy
    · by_cases h3 : df.hasCol kv.1
      · have h3' : (df.maskFilter m).hasCol kv.1 = true := by
          rw [maskFilter_hasCol]; exact h3
        obtain ⟨c, hc⟩ := Option.isSome_iff_exists.mp (by simpa [DF.hasCol] using h3)
        have hfind : (df.maskFilter m).findCol kv.1
            = some { c with cells := applyMask m c.cells } := by
          rw [maskFilter_findCol, hc]
          rfl
        simp only [h1, h2, h3, h3', hfind, if_true, if_false, not_false_iff, true_and,
          and_true, and_self, ite_true, ite_false, not_true, not_false_eq_true]
        rw [show List.map (filterMatch kv.2) (applyMask m c.cells)
              = applyMask m (c.cells.map (filterMatch kv.2)) from (applyMask_map _ _ _).symm]
        rw [maskFilter_maskFilter]
        unfold filterMaskOn
        rw [hc]
        have h1' : unification_keys.contains kv.1 = false := by simpa using h1
        simp [h1']
        split <;> rfl
      · have h3' : (df.maskFilter m).hasCol kv.1 = false := by
          rw [maskFilter_hasCol]; simpa using h3
        simp [h3', h3, h2, h1]
    · simp [h2, h1]

theorem filtersStage_conj (df : DF) (hWf : df.Wf) (fs : List (String × FVal)) :
    filtersStage df fs = df.maskFilter (conjMask df fs) := by
  unfold filtersStage conjMask
  suffices h : ∀ (fs : List (String × FVal)) (m : List Bool),
      fs.foldl (fun acc kv =>
        if unification_keys.contains kv.1 then acc
        else if kv.2.truthy ∧ acc.hasCol kv.1 then
          acc.maskFilter (match acc.findCol kv.1 with
            | some c => c.cells.map (filterMatch kv.2)
            | none => [])
        else acc) (df.maskFilter m)
      = df.maskFilter (fs.foldl (fun m kv =>
          if ¬ unification_keys.contains kv.1 ∧ kv.2.truthy ∧ df.hasCol kv.1 then
            zipAnd m (filterMaskOn df kv)
          else m) m) by
    have h0 := h fs (List.replicate df.numRows true)
    rw [maskFilter_replicate_true df hWf] at h0
    exact h0
  intro fs
  induction fs with
  | nil => intro m; rfl
  | cons kv rest ih =>
    intro m
    simp only [List.foldl_cons]
    rw [show (if unification_keys.contains kv.1 then df.maskFilter m
        else if kv.2.truthy ∧ (df.maskFilter m).hasCol kv.1 then
          (df.maskFilter m).maskFilter (match (df.maskFilter m).findCol kv.1 with
            | some c => c.cells.map (filterMatch kv.2)
            | none => [])
        else df.maskFilter m)
      = df.maskFilter (if ¬ unification_keys.contains kv.1 ∧ kv.2.truthy ∧ df.hasCol kv.1 then
          zipAnd m (filterMaskOn df kv)
        else m) from filtersStage_step df m kv]
    exact ih _

-- ### Column-name preservation through the unification stage

theorem names_mapCols (df : DF) (f : Col → Col) (hf : ∀ c, (f c).name = c.name) :
    (df.mapCols f).names = df.names := by
  unfold DF.names DF.mapCols
  simp only [List.map_map]
  exact List.map_congr_left (fun c _ => by simp [Function.comp_apply, hf c])

theorem len_mapCols (df : DF) (f : Col → Col) :
    (df.mapCols f).cols.length = df.cols.length := by
  unfold DF.mapCols
  simp

theorem len_apply_unification (data : DF) (n : String) (m : List (String × String)) :
    (apply_unification data n m).cols.length = data.cols.length := by
  unfold apply_unification
  split
  · rfl
  · exact len_mapCols _ _

theorem names_apply_unification (data : DF) (n : String) (m : List (String × String)) :
    (apply_unification data n m).names = data.names := by
  unfold apply_unification
  split
  · rfl
  · refine names_mapCols _ _ (fun c => ?_)
    by_cases h : c.name = n <;> simp [h]

theorem names_maskFilter (df : DF) (mask : List Bool) :
    (df.maskFilter mask).names = df.names :=
  names_mapCols _ _ (fun _ => rfl)

theorem names_maskAssign (df : DF) (mask : List Bool) (sub : DF)
    (hlen : df.cols.length ≤ sub.cols.length) :
    (df.maskAssign mask sub).names = df.names := by
  unfold DF.maskAssign DF.names
  simp only [List.map_map]
  have h1 : ((df.cols.zip sub.cols).map
      ((fun c : Col => c.name) ∘ (fun p : Col × Col =>
        { p.1 with cells := scatterMask mask p.1.cells p.2.cells })))
      = (df.cols.zip sub.cols).map (fun p => p.1.name) := by
    apply List.map_congr_left
    intro p _
    rfl
  rw [h1]
  have h2 : (df.cols.zip sub.cols).map (fun p => p.1.name)
      = ((df.cols.zip sub.cols).map Prod.fst).map (fun c : Col => c.name) := by
    simp [List.map_map]
  rw [h2, List.map_fst_zip _ _ hlen]

theorem names_applyByProvince (df : DF) (m : List (String × List (String × String))) :
    (applyByProvince df m).names = df.names := by
  unfold applyByProvince
  suffices h : ∀ (ms : List (String × List (String × String))) (acc : DF),
      acc.names = df.names →
      (ms.foldl (fun acc pm =>
        let province_mask := match acc.findCol "nombre_prov" with
          | some c => c.cells.map (fun v => pyEqCell v (.str pm.1))
          | none => []
        if province_mask.any id then
          let province_data := acc.maskFilter province_mask
          let province_data := apply_unification province_data "sector" pm.2
          acc.maskAssign province_mask province_data
        else acc) acc).names = df.names by
    exact h m df rfl
  intro ms
  induction ms with
  | nil => intro acc hacc; exact hacc
  | cons pm rest ih =>
    intro acc hacc
    simp only [List.foldl_cons]
    apply ih
    split
    · rw [names_maskAssign]
      · exact hacc
      · rw [len_apply_unification]
        rw [show (acc.maskFilter _).cols.length = acc.cols.length from len_mapCols _ _]
    · exact hacc

theorem fLookup_of_not_mem (fs : List (String × FVal)) (k : String)
    (h : ∀ kv ∈ fs, kv.1 ≠ k) : fLookup fs k = none := by
  unfold fLookup
  rw [List.find?_eq_none.mpr]
  · rfl
  · intro kv hkv
    simp [h kv hkv]

theorem names_unificationStage (df : DF) (f : Option (List (String × FVal))) :
    (unificationStage df f).names = df.names := by
  unfold unificationStage
  cases f with
  | none => rfl
  | some fs =>
    dsimp only
    split
    · split
      · split
        · exact names_applyByProvince df _
        · rfl
      · rfl
    · split
      · split
        · split
          · exact names_apply_unification df "sector" _
          · rfl
        · rfl
      · rfl

theorem hasCol_eq_names_contains (df : DF) (n : String) :
    df.hasCol n = df.names.contains n := by
  unfold DF.hasCol DF.findCol DF.names
  induction df.cols with
  | nil => rfl
  | cons c cs ih =>
    by_cases h : c.name = n
    · simp [List.find?, h]
    · have h' : ¬ n = c.name := fun he => h he.symm
      simpa [List.find?, h, h'] using ih

theorem hasCol_unificationStage (df : DF) (f : Option (List (String × FVal))) (n : String) :
    (unificationStage df f).hasCol n = df.hasCol n := by
  rw [hasCol_eq_names_contains, hasCol_eq_names_contains, names_unificationStage]

theorem numRows_maskFilter_le (df : DF) (mask : List Bool) :
    (df.maskFilter mask).numRows ≤ df.numRows := by
  unfold DF.maskFilter DF.mapCols DF.numRows
  cases df.cols with
  | nil => simp
  | cons c cs => simpa using applyMask_length_le mask c.cells

-- ### Frame property of by-province unification (C4)

/-- The province value of row `i` (first `nombre_prov` column). -/
def provAt (df : DF) (i : Nat) : Option Val :=
  (df.findCol "nombre_prov").bind (fun c => c.cells.get? i)

/-- Relation between an original column and its unified version: name and
dtype are kept, non-sector columns are untouched, and sector cells are
untouched on rows whose province is outside the processed set `ps`. -/
def colRel (ps : List String) (pv : Nat → Option Val) (cj aj : Col) : Prop :=
  aj.name = cj.name ∧ aj.dtype = cj.dtype ∧
  (cj.name ≠ "sector" → aj = cj) ∧
  (∀ i, (∀ p ∈ ps, pv i ≠ some (.str p)) → aj.cells.get? i = cj.cells.get? i)

theorem colRel_refl (ps : List String) (pv : Nat → Option Val) (c : Col) :
    colRel ps pv c c :=
  ⟨rfl, rfl, fun _ => rfl, fun _ _ => rfl⟩

theorem colRel_mono {ps ps' : List String} {pv : Nat → Option Val} {cj aj : Col}
    (hsub : ∀ p ∈ ps, p ∈ ps') (h : colRel ps pv cj aj) : colRel ps' pv cj aj :=
  ⟨h.1, h.2.1, h.2.2.1, fun i hi => h.2.2.2 i (fun p hp => hi p (hsub p hp))⟩

theorem forall₂_get (r : Col → Col → Prop) (l : List Col) (u : List Col)
    (h : List.Forall₂ r l u) (i : Nat) (a : Col) (b : Col)
    (ha : l.get? i = some a) (hb : u.get? i = some b) : r a b := by
  induction h generalizing i with
  | nil => simp at ha
  | @cons x y xs ys hr ht ih =>
    cases i with
    | zero =>
      simp only [List.get?_cons_zero, Option.some.injEq] at ha hb
      subst ha; subst hb
      exact hr
    | succ n =>
      simp only [List.get?_cons_succ] at ha hb
      exact ih n ha hb

theorem findCol_forall₂ {ps : List String} {pv : Nat → Option Val}
    {cols1 cols2 : List Col} (h : List.Forall₂ (colRel ps pv) cols1 cols2)
    (n : String) (hn : n ≠ "sector") :
    List.find? (fun c => c.name = n) cols2 = List.find? (fun c => c.name = n) cols1 := by
  induction h with
  | nil => rfl
  | @cons c1 c2 cs1 cs2 hr ht ih =>
    by_cases hname : c1.name = n
    · have h2 : c2.name = n := by rw [hr.1, hname]
      rw [List.find?_cons_of_pos _ (by simp [h2]), List.find?_cons_of_pos _ (by simp [hname])]
      have : c2 = c1 := hr.2.2.1 (by rw [hname]; exact hn)
      rw [this]
    · have h2 : ¬ c2.name = n := by rw [hr.1]; exact hname
      rw [List.find?_cons_of_neg _ (by simp [h2]), List.find?_cons_of_neg _ (by simp [hname])]
      exact ih

theorem scatterMask_get_not_true {A : Type} (m : List Bool) (c s : List A) (i : Nat)
    (h : m.get? i ≠ some true) : (scatterMask m c s).get? i = c.get? i := by
  induction m generalizing c s i with
  | nil => cases c <;> simp [scatterMask]
  | cons b ms ih =>
    cases c with
    | nil => cases b <;> cases s <;> simp [scatterMask]
    | cons x cs =>
      cases b with
      | true =>
        cases s with
        | nil =>
          cases i with
          | zero => simp [scatterMask]
          | succ n =>
            simp only [scatterMask, List.getElem?_cons_succ]
            exact ih cs [] n (by simpa using h)
        | cons y ys =>
          cases i with
          | zero => exact absurd (by simp) h
          | succ n =>
            simp only [scatterMask, List.getElem?_cons_succ]
            exact ih cs ys n (by simpa using h)
      | false =>
        cases i with
        | zero => simp [scatterMask]
        | succ n =>
          simp only [scatterMask, List.getElem?_cons_succ]
          exact ih cs s n (by simpa using h)

theorem pyEqCell_str (v : Val) (p : String) : pyEqCell v (.str p) = true ↔ v = .str p := by
  cases v <;> simp [pyEqCell]

theorem zip_self_map {A B : Type} (l : List A) (g : A → B) :
    l.zip (l.map g) = l.map (fun a => (a, g a)) := by
  induction l with
  | nil => rfl
  | cons x xs ih => simp [ih]

theorem maskAssign_mapCols (acc : DF) (mask : List Bool) (g : Col → Col) :
    acc.maskAssign mask (acc.mapCols g)
      = ⟨acc.cols.map (fun a => { a with cells := scatterMask mask a.cells (g a).cells })⟩ := by
  unfold DF.maskAssign DF.mapCols
  congr 1
  rw [zip_self_map, List.map_map]
  apply List.map_congr_left
  intro a _
  rfl

theorem mapCols_mapCols (df : DF) (f g : Col → Col) :
    (df.mapCols f).mapCols g = df.mapCols (g ∘ f) := by
  unfold DF.mapCols
  simp [List.map_map]

theorem maskAssign_colRel (df acc : DF) (ps : List String) (p : String)
    (mask : List Bool)
    (hmask : ∀ i, provAt df i ≠ some (.str p) → mask.get? i ≠ some true)
    (hrel : List.Forall₂ (colRel ps (provAt df)) df.cols acc.cols)
    (g : Col → Col) (hgname : ∀ c, (g c).name = c.name)
    (hgcells : ∀ c, c.name ≠ "sector" → (g c).cells = applyMask mask c.cells) :
    List.Forall₂ (colRel (p :: ps) (provAt df)) df.cols
      (acc.maskAssign mask (acc.mapCols g)).cols := by
  rw [maskAssign_mapCols]
  rw [show (⟨acc.cols.map (fun a => { a with
      cells := scatterMask mask a.cells (g a).cells })⟩ : DF).cols
    = acc.cols.map (fun a => { a with
      cells := scatterMask mask a.cells (g a).cells }) from rfl]
  rw [List.forall₂_map_right_iff]
  refine hrel.imp (fun cj aj h => ?_)
  refine ⟨h.1, h.2.1, ?_, ?_⟩
  · intro hns
    have haj : aj = cj := h.2.2.1 hns
    have hname : aj.name ≠ "sector" := by rw [h.1]; exact hns
    have hcells : (g aj).cells = applyMask mask aj.cells := hgcells aj hname
    have : ({ aj with cells := scatterMask mask aj.cells (g aj).cells } : Col) = aj := by
      rw [hcells, scatterMask_applyMask]
    rw [this]
    exact haj
  · intro i hi
    have hm : mask.get? i ≠ some true := hmask i (hi p (by simp))
    have : ({ aj with cells := scatterMask mask aj.cells (g aj).cells } : Col).cells.get? i
        = aj.cells.get? i := scatterMask_get_not_true mask aj.cells (g aj).cells i hm
    rw [this]
    exact h.2.2.2 i (fun q hq => hi q (by simp [hq]))

set_option maxHeartbeats 800000 in
theorem applyByProvince_rel (df : DF) (m : List (String × List (String × String))) :
    List.Forall₂ (colRel (m.map Prod.fst) (provAt df)) df.cols (applyByProvince df m).cols := by
  unfold applyByProvince
  suffices h : ∀ (ms : List (String × List (String × String))) (acc : DF) (ps : List String),
      List.Forall₂ (colRel ps (provAt df)) df.cols acc.cols →
      List.Forall₂ (colRel (ms.map Prod.fst ++ ps) (provAt df)) df.cols
        (ms.foldl (fun acc pm =>
          let province_mask := match acc.findCol "nombre_prov" with
            | some c => c.cells.map (fun v => pyEqCell v (.str pm.1))
            | none => []
          if province_mask.any id then
            let province_data := acc.maskFilter province_mask
            let province_data := apply_unification province_data "sector" pm.2
            acc.maskAssign province_mask province_data
          else acc) acc).cols by
    have h0 := h m df [] (List.forall₂_same.mpr (fun c _ => colRel_refl _ _ c))
    refine h0.imp (fun cj aj hrel => colRel_mono ?_ hrel)
    intro q hq
    simpa using (List.mem_append.mp hq).resolve_right (by simp)
  intro ms
  induction ms with
  | nil =>
    intro acc ps hrel
    simpa using hrel
  | cons pm rest ih =>
    intro acc ps hrel
    simp only [List.foldl_cons, List.map_cons]
    have hfind : acc.findCol "nombre_prov" = df.findCol "nombre_prov" :=
      findCol_forall₂ hrel "nombre_prov" (by decide)
    have hmask : ∀ i, provAt df i ≠ some (.str pm.1) →
        (match acc.findCol "nombre_prov" with
          | some c => c.cells.map (fun v => pyEqCell v (.str pm.1))
          | none => ([] : List Bool)).get? i ≠ some true := by
      intro i hp
      rw [hfind]
      cases hpc : df.findCol "nombre_prov" with
      | none => simp
      | some pc =>
        simp only [List.get?_map]
        cases hcell : pc.cells.get? i with
        | none => simp
        | some v =>
          have hv : v ≠ .str pm.1 := by
            intro he
            apply hp
            unfold provAt
            rw [hpc]
            simpa using hcell.trans (by rw [he])
          simp only [Option.map_some']
          intro hcon
          injection hcon with hcon
          exact hv ((pyEqCell_str v pm.1).mp hcon)
    have hstep : List.Forall₂ (colRel (pm.1 :: ps) (provAt df)) df.cols
        (let province_mask := match acc.findCol "nombre_prov" with
          | some c => c.cells.map (fun v => pyEqCell v (.str pm.1))
          | none => []
         if province_mask.any id then
           let province_data := acc.maskFilter province_mask
           let province_data := apply_unification province_data "sector" pm.2
           acc.maskAssign province_mask province_data
         else acc).cols := by
      simp only []
      split
      · -- the province occurs: scatter the unified copy back
        set mask := (match acc.findCol "nombre_prov" with
          | some c => c.cells.map (fun v => pyEqCell v (.str pm.1))
          | none => ([] : List Bool)) with hmaskdef
        unfold apply_unification
        split
        · -- empty mapping or no sector column: the copy is unchanged
          exact maskAssign_colRel df acc ps pm.1 mask hmask hrel
            (fun c => { c with cells := applyMask mask c.cells }) (fun _ => rfl)
            (fun c _ => rfl)
        · rw [show (acc.maskFilter mask) = acc.mapCols
              (fun c => { c with cells := applyMask mask c.cells }) from rfl,
            mapCols_mapCols]
          refine maskAssign_colRel df acc ps pm.1 mask hmask hrel _ ?_ ?_
          · intro c
            simp only [Function.comp_apply]
            split <;> rfl
          · intro c hc
            simp only [Function.comp_apply]
            rw [if_neg (by simpa using hc)]
      · exact hrel.imp (fun cj aj h => colRel_mono (fun q hq => by simp [hq]) h)
    have := ih _ (pm.1 :: ps) hstep
    refine this.imp (fun cj aj h => colRel_mono ?_ h)
    intro q hq
    simp only [List.mem_append, List.mem_cons] at hq ⊢
    tauto

-- ### Counting lemmas for the cerco aggregation (C6)

theorem applyMask_zip {A B : Type} (m : List Bool) (a : List A) (b : List B) :
    (applyMask m a).zip (applyMask m b) = applyMask m (a.zip b) := by
  induction m generalizing a b with
  | nil => cases a <;> cases b <;> simp [applyMask]
  | cons b0 ms ih =>
    cases a with
    | nil => cases b <;> cases b0 <;> simp [applyMask]
    | cons x xs =>
      cases b with
      | nil => cases b0 <;> simp [applyMask]
      | cons y ys => cases b0 <;> simp [applyMask, ih] <;> rfl

theorem applyMask_filter_count {A : Type} (p : Val → Bool) (q : A → Bool)
    (l1 : List Val) (l2 : List A) (hlen : l1.length = l2.length) :
    ((applyMask (l1.map p) l2).filter q).length
      = ((l1.zip l2).filter (fun pr => p pr.1 && q pr.2)).length := by
  induction l1 generalizing l2 with
  | nil =>
    cases l2 with
    | nil => rfl
    | cons y ys => simp at hlen
  | cons x xs ih =>
    cases l2 with
    | nil => simp at hlen
    | cons y ys =>
      have hlen' : xs.length = ys.length := by simpa using hlen
      cases hp : p x with
      | true =>
        simp only [List.map_cons, hp, applyMask, List.zip_cons_cons, List.filter]
        cases hq : q y with
        | true => simp [hp, hq, ih ys hlen']; rfl
        | false => simp [hp, hq, ih ys hlen']; rfl
      | false =>
        simp only [List.map_cons, hp, applyMask, List.zip_cons_cons, List.filter]
        simp [hp, ih ys hlen']
        rfl

-- ### Grouping lemmas for the sector similarity detector (C9)

theorem pyMinLen_cons (x y : String) (ys : List String) :
    pyMinLen x (y :: ys) = pyMinLen (if y.length < x.length then y else x) ys := rfl

theorem pyMinLen_spec (xs : List String) : ∀ (x : String),
    pyMinLen x xs ∈ x :: xs ∧
    (∀ s ∈ x :: xs, (pyMinLen x xs).length ≤ s.length) ∧
    ∃ pre post, x :: xs = pre ++ pyMinLen x xs :: post ∧
      ∀ s ∈ pre, (pyMinLen x xs).length < s.length := by
  induction xs with
  | nil =>
    intro x
    refine ⟨by simp [pyMinLen], ?_, [], [], by simp [pyMinLen], by simp⟩
    intro s hs
    simp at hs
    simp [pyMinLen, hs]
  | cons y ys ih =>
    intro x
    rw [pyMinLen_cons]
    by_cases hxy : y.length < x.length
    · rw [if_pos hxy]
      obtain ⟨hmem, hle, pre, post, hdec, hpre⟩ := ih y
      refine ⟨?_, ?_, ?_⟩
      · rcases List.mem_cons.mp hmem with h | h
        · exact List.mem_cons.mpr (Or.inr (by rw [h]; exact List.mem_cons_self y ys))
        · exact List.mem_cons.mpr (Or.inr (List.mem_cons.mpr (Or.inr h)))
      · intro s hs
        rcases List.mem_cons.mp hs with h | h
        · subst h
          exact le_trans (hle y (List.mem_cons_self y ys)) (le_of_lt hxy)
        · exact hle s h
      · refine ⟨x :: pre, post, ?_, ?_⟩
        · rw [List.cons_append, ← hdec]
        · intro s hs
          rcases List.mem_cons.mp hs with h | h
          · subst h
            exact lt_of_le_of_lt (hle y (List.mem_cons_self y ys)) hxy
          · exact hpre s h
    · rw [if_neg hxy]
      have hxley : x.length ≤ y.length := Nat.le_of_not_lt hxy
      obtain ⟨hmem, hle, pre, post, hdec, hpre⟩ := ih x
      refine ⟨?_, ?_, ?_⟩
      · rcases List.mem_cons.mp hmem with h | h
        · exact List.mem_cons.mpr (Or.inl h)
        · exact List.mem_cons.mpr (Or.inr (List.mem_cons.mpr (Or.inr h)))
      · intro s hs
        rcases List.mem_cons.mp hs with h | h
        · rw [h]
          exact hle x (List.mem_cons_self x ys)
        · rcases List.mem_cons.mp h with h' | h'
          · rw [h']
            exact le_trans (hle x (List.mem_cons_self x ys)) hxley
          · exact hle s (List.mem_cons.mpr (Or.inr h'))
      · cases pre with
        | nil =>
          have hhead : pyMinLen x ys = x := by
            have := hdec
            simp at this
            exact this.1.symm
          refine ⟨[], y :: ys, by simp [hhead], by simp⟩
        | cons p0 ps =>
          have hp0 : p0 = x := by
            have := hdec
            simp at this
            exact this.1.symm
          have hys : ys = ps ++ pyMinLen x ys :: post := by
            have := hdec
            simp at this
            exact this.2
          have hx : (pyMinLen x ys).length < x.length :=
            hp0 ▸ hpre p0 (List.mem_cons_self p0 ps)
          refine ⟨p0 :: y :: ps, post, ?_, ?_⟩
          · rw [hp0, List.cons_append, List.cons_append, ← hys]
          · intro s hs
            rcases List.mem_cons.mp hs with h | h
            · rw [h, hp0]
              exact hx
            · rcases List.mem_cons.mp h with h' | h'
              · rw [h']
                exact lt_of_lt_of_le hx hxley
              · exact hpre s (List.mem_cons.mpr (Or.inr h'))

/-- The properties C9 asserts of each reported group. -/
def GoodEntry (e : String × List String) : Prop :=
  2 ≤ e.2.length ∧ e.1 ∈ e.2 ∧ (∀ s ∈ e.2, e.1.length ≤ s.length) ∧
  ∃ pre post, e.2 = pre ++ e.1 :: post ∧ ∀ s ∈ pre, e.1.length < s.length

theorem assocSet_good (acc : List (String × List String)) (k : String) (g : List String)
    (hacc : ∀ e ∈ acc, GoodEntry e) (hk : GoodEntry (k, g)) :
    ∀ e ∈ assocSet acc k g, GoodEntry e := by
  unfold assocSet
  split
  · intro e he
    simp only [List.mem_map] at he
    obtain ⟨e0, he0, hcase⟩ := he
    by_cases h : e0.1 = k
    · rw [if_pos h] at hcase
      rw [← hcase]
      exact hk
    · rw [if_neg h] at hcase
      rw [← hcase]
      exact hacc e0 he0
  · intro e he
    rcases List.mem_append.mp he with h | h
    · exact hacc e h
    · simp at h
      rw [h]
      exact hk

theorem fssLoop_good (th : ℚ) : ∀ (l processed : List String)
    (acc : List (String × List String)), (∀ e ∈ acc, GoodEntry e) →
    ∀ e ∈ fssLoop th l processed acc, GoodEntry e := by
  intro l
  induction l with
  | nil =>
    intro processed acc hacc e he
    exact hacc e he
  | cons s1 rest ih =>
    intro processed acc hacc e he
    rw [fssLoop] at he
    split at he
    · exact ih _ _ hacc e he
    · refine ih _ _ ?_ e he
      split
      · rename_i hlen
        apply assocSet_good _ _ _ hacc
        obtain ⟨hmem, hle, pre, post, hdec, hpre⟩ :=
          pyMinLen_spec (collectGroup th s1 rest (s1 :: processed)).1 s1
        refine ⟨?_, hmem, hle, pre, post, hdec, hpre⟩
        simpa using hlen
      · exact hacc

-- ### Uniqueness and sorting lemmas for `get_unique_values` (C10)

theorem fill0_ne_null (v : Val) : fill_cell (.num 0) v ≠ .null := by
  cases v <;> simp [fill_cell]

theorem yearAdjust_mem (cols : List Col) (y : Col) (hy : y ∈ yearAdjust cols) :
    y ∈ cols ∨ ∃ L, y = ⟨"year", .numeric, L⟩ := by
  unfold yearAdjust at hy
  cases h : (DF.mk cols).findCol "fecha_inspeccion" with
  | none =>
    rw [h] at hy
    exact Or.inl hy
  | some fc =>
    rw [h] at hy
    dsimp only at hy
    by_cases hyc : (DF.mk cols).hasCol "year"
    · rw [if_pos hyc] at hy
      obtain ⟨c, hc, hcase⟩ := List.mem_map.mp hy
      by_cases hn : c.name = "year"
      · rw [if_pos hn] at hcase
        exact Or.inr ⟨_, hcase.symm⟩
      · rw [if_neg hn] at hcase
        exact Or.inl (hcase ▸ hc)
    · rw [if_neg hyc] at hy
      rcases List.mem_append.mp hy with h' | h'
      · exact Or.inl h'
      · exact Or.inr ⟨_, by simpa using h'⟩

theorem yearAdjust_get (cols : List Col) (j : Nat) (c : Col)
    (hj : cols.get? j = some c) (hname : c.name ≠ "year") :
    (yearAdjust cols).get? j = some c := by
  unfold yearAdjust
  cases h : (DF.mk cols).findCol "fecha_inspeccion" with
  | none => exact hj
  | some fc =>
    dsimp only
    by_cases hyc : (DF.mk cols).hasCol "year"
    · rw [if_pos hyc, List.get?_map, hj]
      simp [hname]
    · rw [if_neg hyc]
      obtain ⟨hlt, -⟩ := List.get?_eq_some.mp hj
      rw [List.get?_append hlt]
      exact hj

theorem cs21_numeric_cells (c : Col) (h : (colStep2 (colStep1 c)).dtype = .numeric) :
    ∀ v ∈ (colStep2 (colStep1 c)).cells, v ≠ .null := by
  unfold colStep2 at h ⊢
  by_cases hc : critical_numeric_columns.contains (colStep1 c).name
  · rw [if_pos hc]
    intro v hv
    simp only [List.map_map, List.mem_map] at hv
    obtain ⟨x, -, hx⟩ := hv
    rw [← hx]
    exact fill0_ne_null _
  · rw [if_neg hc] at h ⊢
    by_cases hn : (colStep1 c).dtype = .numeric
    · rw [if_pos hn]
      intro v hv
      obtain ⟨x, -, hx⟩ := List.mem_map.mp hv
      rw [← hx]
      exact fill0_ne_null _
    · rw [if_neg hn] at h ⊢
      by_cases ho : (colStep1 c).dtype = .object ∧ ¬ date_columns.contains (colStep1 c).name
      · rw [if_pos ho] at h
        simp only at h
        exact absurd (ho.1.symm.trans h) (by simp)
      · rw [if_neg ho] at h ⊢
        exact absurd h hn

theorem cs21_object_cells (c : Col) (h : (colStep2 (colStep1 c)).dtype = .object) :
    ∀ v ∈ (colStep2 (colStep1 c)).cells, ∃ s, v = .str s ∧
      (s = "" ∨ (s ≠ "" ∧ s ≠ " " ∧ s ≠ "nan" ∧ s ≠ "NaN" ∧ s ≠ "None")) := by
  by_cases hd : date_columns.contains c.name
  · exfalso
    have h1 : colStep1 c = ⟨c.name, .datetime, (c.cells.map repl3cell).map to_datetime_cell⟩ := by
      unfold colStep1
      rw [if_pos hd]
    rw [h1] at h
    unfold colStep2 at h
    by_cases hc : critical_numeric_columns.contains c.name
    · have hd' : c.name ∈ date_columns := by simpa using hd
      exact dc_not_crit _ hd' (by simpa using hc)
    · simp only [hc] at h
      revert h
      simp
  · have h1 : colStep1 c = { c with cells := c.cells.map repl3cell } := by
      unfold colStep1
      rw [if_neg hd]
    rw [h1] at h ⊢
    unfold colStep2 at h ⊢
    by_cases hc : critical_numeric_columns.contains c.name
    · rw [if_pos hc] at h
      exact absurd h (by simp)
    · rw [if_neg hc] at h ⊢
      by_cases hn : c.dtype = .numeric
      · rw [if_pos hn] at h
        simp only at h
        exact absurd (hn.symm.trans h) (by simp)
      · rw [if_neg hn] at h ⊢
        by_cases ho : c.dtype = .object ∧ ¬ date_columns.contains c.name
        · rw [if_pos ho]
          intro v hv
          simp only [List.map_map, List.mem_map] at hv
          obtain ⟨x, -, hx⟩ := hv
          obtain ⟨s, hs, hrange⟩ := text_clean_repl3_range x
          refine ⟨s, ?_, hrange⟩
          rw [← hx]
          exact hs
        · rw [if_neg ho] at h
          simp only at h
          exact absurd (ho ⟨h, hd⟩) not_false

-- ### Appending one filter (C2, C8)

theorem fLookup_append_ne (fs : List (String × FVal)) (k : String) (v : FVal)
    (u : String) (h : k ≠ u) : fLookup (fs ++ [(k, v)]) u = fLookup fs u := by
  unfold fLookup
  rw [List.find?_append]
  have h0 : List.find? (fun p => p.1 = u) [(k, v)] = none := by
    simp [List.find?, h]
  rw [h0, Option.or_none]

theorem unificationStage_append_ne (df : DF) (fs : List (String × FVal))
    (k : String) (v : FVal) (hk : k ∉ unification_keys) :
    unificationStage df (some (fs ++ [(k, v)])) = unificationStage df (some fs) := by
  have h1 : k ≠ "sector_unification_mapping_by_province" := by
    intro he
    exact hk (by rw [he]; simp [unification_keys])
  have h2 : k ≠ "sector_unification_mapping" := by
    intro he
    exact hk (by rw [he]; simp [unification_keys])
  unfold unificationStage
  dsimp only
  rw [fLookup_append_ne fs k v _ h1, fLookup_append_ne fs k v _ h2]

theorem filtersStage_append_one (df : DF) (fs : List (String × FVal))
    (kv : String × FVal) :
    filtersStage df (fs ++ [kv]) =
      (if unification_keys.contains kv.1 then filtersStage df fs
       else if kv.2.truthy ∧ (filtersStage df fs).hasCol kv.1 then
         (filtersStage df fs).maskFilter
           (match (filtersStage df fs).findCol kv.1 with
            | some c => c.cells.map (filterMatch kv.2)
            | none => [])
       else filtersStage df fs) := by
  unfold filtersStage
  rw [List.foldl_append]
  rfl

-- ### Postcondition of the geometric shrink loop (C7)

theorem shrinkLoop_post (df : DF) (mm : ℚ) : ∀ (fuel s : Nat), s ≤ fuel + 50 →
    ¬ ((df.headDF (shrinkLoop df mm fuel s)).memMB > mm * (9 / 10) ∧
       shrinkLoop df mm fuel s > 50) := by
  intro fuel
  induction fuel with
  | zero =>
    intro s hs
    rw [shrinkLoop]
    rintro ⟨-, h50⟩
    omega
  | succ n ih =>
    intro s hs
    rw [shrinkLoop]
    split
    · rename_i hcond
      refine ih (max 50 (3 * s / 4)) ?_
      have h50 : s > 50 := hcond.2
      omega
    · rename_i hcond
      exact hcond

-- ### Sortedness of the modelled `sorted` (C10)

/-- C5: normalization is idempotent — running `process_data` on the table
produced by a first run changes nothing (every column, dtype and cell is
identical after the second run). -/
theorem C5_process_data_idempotent (df : DF) :
    process_data (process_data df) = process_data df :=
  process_data_idem df

/-- C9: `find_similar_sectors` reports only groups of at least two
members; each reported key belongs to its group, is of minimal length in
it, and is the first member of minimal length; and two non-empty labels
with equal normalized forms have similarity exactly 1. -/
theorem C9_group_key_properties (th : ℚ) (l : List String) :
    (∀ e ∈ find_similar_sectors th l,
      2 ≤ e.2.length ∧ e.1 ∈ e.2 ∧ (∀ s ∈ e.2, e.1.length ≤ s.length) ∧
      ∃ pre post, e.2 = pre ++ e.1 :: post ∧ ∀ s ∈ pre, e.1.length < s.length) ∧
    (∀ s1 s2 : String, s1 ≠ "" → s2 ≠ "" →
      normalize_sector_name s1 = normalize_sector_name s2 →
      calculate_similarity s1 s2 = 1) := by
  constructor
  · intro e he
    unfold find_similar_sectors at he
    dsimp only at he
    split at he
    · simp at he
    · have hg := fssLoop_good th (l.filter (fun s => pyStrip s ≠ "")) [] [] (by simp) e he
      exact hg
  · intro s1 s2 h1 h2 hn
    unfold calculate_similarity
    rw [if_neg (by tauto)]
    simp [hn]

/-- C9 witness: two labels differing only in internal whitespace have
similarity 1, and a reported group satisfies the key properties. -/
theorem C9_witness : calculate_similarity "A B" "A  B" = 1 := by
  have h := (C9_group_key_properties (8 / 10) ["A B", "A  B"]).2 "A B" "A  B"
    (by decide) (by decide)
  exact h (by decide)

/-- C3 (amended): when `get_filtered_data` is called with a non-empty
activity type on a dataset that lacks the activity-type column, the call
is NOT recovered: it raises (returns `Except.error`), contrary to the
spec's skip-the-filter claim. -/
theorem C3_missing_activity_column_raises (df : DF) (a : String)
    (f : Option (List (String × FVal))) (ha : a ≠ "")
    (hmiss : df.hasCol "tipoActividadInspeccion" = false) :
    get_filtered_data df (some a) f = .error () := by
  have hm2 : (unificationStage df f).hasCol "tipoActividadInspeccion" = false := by
    rw [hasCol_unificationStage]
    exact hmiss
  have hfind : (unificationStage df f).findCol "tipoActividadInspeccion" = none := by
    unfold DF.hasCol at hm2
    exact Option.not_isSome_iff_eq_none.mp (by rw [hm2]; simp)
  unfold get_filtered_data activityStage
  dsimp only
  rw [if_neg ha, hfind]
  rfl

/-- C3 counterexample: a concrete call with a non-empty activity type on a
table without the activity column returns an error instead of a view. -/
theorem C3_counterexample :
    get_filtered_data ⟨[⟨"x", DType.numeric, [.num 1]⟩]⟩ (some "cerco") none
      = .error () := rfl

/-- C3 witness: the amended theorem applied at a concrete table. -/
theorem C3_witness :
    get_filtered_data ⟨[⟨"sector", DType.object, [.str "a"]⟩]⟩ (some "vigilancia") none
      = .error () :=
  C3_missing_activity_column_raises ⟨[⟨"sector", DType.object, [.str "a"]⟩]⟩
    "vigilancia" none (by decide) (by decide)

/-- C2 (amended): appending one more filter `(k, v)` (not a unification
key, not already present) to a filter set applies it exactly when its
value is truthy AND names a column of the accumulated view — keeping the
rows whose column value matches (`filterMatch`: list membership for list
values, equality otherwise); otherwise, including for the falsy values 0,
`""` and `[]`, and for unknown keys, the filter is skipped silently. -/
theorem C2_filters_applied (df : DF) (a : Option String)
    (fs : List (String × FVal)) (k : String) (v : FVal)
    (hk : k ∉ unification_keys) (hnew : ∀ kv ∈ fs, kv.1 ≠ k) (r1 : DF)
    (h1 : get_filtered_data df a (some fs) = .ok r1) :
    get_filtered_data df a (some (fs ++ [(k, v)])) = .ok
      (if v.truthy ∧ r1.hasCol k then
        r1.maskFilter (match r1.findCol k with
          | some c => c.cells.map (filterMatch v)
          | none => [])
      else r1) := by
  unfold get_filtered_data at h1 ⊢
  rw [unificationStage_append_ne df fs k v hk]
  dsimp only at h1 ⊢
  cases hact : activityStage (unificationStage df (some fs)) a with
  | error e =>
    rw [hact] at h1
    simp at h1
  | ok d2 =>
    rw [hact] at h1
    simp only [Bind.bind, Except.bind, pure, Except.pure] at h1 ⊢
    have hr1 : r1 = filtersStage d2 fs := by
      injection h1 with h1'
      exact h1'.symm
    rw [filtersStage_append_one]
    rw [if_neg (by simpa using hk), ← hr1]

/-- The filter loop as the spec describes it (C2): every non-unification
filter key present as a column is applied, regardless of its value. -/
def filtersSpecApplied (df : DF) (fs : List (String × FVal)) : DF :=
  fs.foldl (fun acc kv =>
    if unification_keys.contains kv.1 then acc
    else match acc.findCol kv.1 with
      | some c => acc.maskFilter (c.cells.map (filterMatch kv.2))
      | none => acc) df

/-- C2 counterexample: a scalar filter value `0` is falsy, so the filter
is skipped (both rows kept), while the spec's unconditional application
would keep only the matching row. -/
theorem C2_counterexample :
    get_filtered_data ⟨[⟨"x", DType.numeric, [.num 0, .num 1]⟩]⟩ none
        (some [("x", FVal.scalar (.num 0))])
      = .ok ⟨[⟨"x", DType.numeric, [.num 0, .num 1]⟩]⟩ ∧
    filtersSpecApplied ⟨[⟨"x", DType.numeric, [.num 0, .num 1]⟩]⟩
        [("x", FVal.scalar (.num 0))]
      ≠ ⟨[⟨"x", DType.numeric, [.num 0, .num 1]⟩]⟩ := by
  exact ⟨rfl, by decide⟩

/-- C2 witness: the amended theorem applied at a concrete table and
filter. -/
theorem C2_witness :
    get_filtered_data ⟨[⟨"x", DType.numeric, [.num 0, .num 1]⟩]⟩ none
        (some ([] ++ [("x", FVal.scalar (.num 0))])) = .ok
      (if (FVal.scalar (.num 0)).truthy ∧
          (⟨[⟨"x", DType.numeric, [.num 0, .num 1]⟩]⟩ : DF).hasCol "x" then
        (⟨[⟨"x", DType.numeric, [.num 0, .num 1]⟩]⟩ : DF).maskFilter
          (match (⟨[⟨"x", DType.numeric, [.num 0, .num 1]⟩]⟩ : DF).findCol "x" with
            | some c => c.cells.map (filterMatch (FVal.scalar (.num 0)))
            | none => [])
      else ⟨[⟨"x", DType.numeric, [.num 0, .num 1]⟩]⟩) :=
  C2_filters_applied ⟨[⟨"x", DType.numeric, [.num 0, .num 1]⟩]⟩ none [] "x"
    (FVal.scalar (.num 0)) (by decide) (by simp)
    ⟨[⟨"x", DType.numeric, [.num 0, .num 1]⟩]⟩ rfl

/-- C8: filtering is monotone — appending one more equality filter to the
filter set can only remove rows from the returned view. -/
theorem C8_filter_monotone (df : DF) (a : Option String)
    (fs : List (String × FVal)) (k : String) (v : Val)
    (hk : k ∉ unification_keys) (hnew : ∀ kv ∈ fs, kv.1 ≠ k)
    (r2 : DF) (h2 : get_filtered_data df a (some (fs ++ [(k, FVal.scalar v)])) = .ok r2) :
    ∃ r1, get_filtered_data df a (some fs) = .ok r1 ∧ r2.numRows ≤ r1.numRows := by
  unfold get_filtered_data at h2 ⊢
  rw [unificationStage_append_ne df fs k (FVal.scalar v) hk] at h2
  dsimp only at h2 ⊢
  cases hact : activityStage (unificationStage df (some fs)) a with
  | error e =>
    rw [hact] at h2
    simp at h2
  | ok d2 =>
    rw [hact] at h2
    simp only [Bind.bind, Except.bind, pure, Except.pure] at h2 ⊢
    refine ⟨filtersStage d2 fs, rfl, ?_⟩
    have hr2 : r2 = filtersStage d2 (fs ++ [(k, FVal.scalar v)]) := by
      injection h2 with h'
      exact h'.symm
    rw [hr2, filtersStage_append_one]
    split
    · exact le_refl _
    · split
      · exact numRows_maskFilter_le _ _
      · exact le_refl _

/-- C8 witness: adding the equality filter `x == 1` to the empty filter
set shrinks a two-row view to one row. -/
theorem C8_witness : ∃ r1,
    get_filtered_data ⟨[⟨"x", DType.numeric, [.num 0, .num 1]⟩]⟩ none (some []) = .ok r1 ∧
    (⟨[⟨"x", DType.numeric, [.num 1]⟩]⟩ : DF).numRows ≤ r1.numRows :=
  C8_filter_monotone ⟨[⟨"x", DType.numeric, [.num 0, .num 1]⟩]⟩ none [] "x" (.num 1)
    (by decide) (by simp) ⟨[⟨"x", DType.numeric, [.num 1]⟩]⟩ rfl

/-- C7 (amended): the render guard always returns a decision (it is a
total function, so it terminates and never raises).  `noData` is returned
exactly for empty input; a truncated slice always satisfies the 0.9 ×
memory-ceiling margin; `schemaOnly` is returned only when even a slice of
at most the 50-row minimum exceeds that margin; but a `full` render is
only bounded by the ceilings themselves (row count ≤ max_rows and memory
≤ max_memory_mb), NOT by the 0.9 margin. -/
theorem C7_render_guard (df : DF) (mr : Nat) (mm : ℚ) :
    (safe_dataframe df mr mm = .noData ↔ df.isEmpty = true) ∧
    (safe_dataframe df mr mm = .full → df.numRows ≤ mr ∧ df.memMB ≤ mm) ∧
    (∀ s, safe_dataframe df mr mm = .truncated s →
      (df.headDF s).memMB ≤ mm * (9 / 10)) ∧
    (safe_dataframe df mr mm = .schemaOnly →
      ∃ s, s ≤ 50 ∧ (df.headDF s).memMB > mm * (9 / 10)) := by
  unfold safe_dataframe
  by_cases he : df.isEmpty
  · rw [if_pos he]
    exact ⟨⟨fun _ => he, fun _ => rfl⟩, fun h => by simp at h,
      fun s h => by simp at h, fun h => by simp at h⟩
  · rw [if_neg he]
    dsimp only
    by_cases hc : df.numRows > mr ∨ df.memMB > mm
    · rw [if_pos hc]
      set s0 := (if df.memMB > mm then
        min mr (max 1000 (mm * (df.numRows : ℚ) / df.memMB).floor.toNat)
      else mr) with hs0
      set sh := shrinkLoop df mm s0 s0 with hsh
      by_cases hb : (df.headDF sh).memMB > mm * (9 / 10)
      · rw [if_pos hb]
        refine ⟨⟨fun h => by simp at h, fun hemp => absurd hemp he⟩,
          fun h => by simp at h, fun s h => by simp at h, fun _ => ?_⟩
        have hpost := shrinkLoop_post df mm s0 s0 (by omega)
        refine ⟨sh, ?_, hb⟩
        by_contra hgt
        exact hpost ⟨hb, by omega⟩
      · rw [if_neg hb]
        refine ⟨⟨fun h => by simp at h, fun hemp => absurd hemp he⟩,
          fun h => by simp at h, ?_, fun h => by simp at h⟩
        intro s h
        injection h with h'
        rw [← h']
        exact le_of_not_lt hb
    · rw [if_neg hc]
      push_neg at hc
      exact ⟨⟨fun h => by simp at h, fun hemp => absurd hemp he⟩,
        fun _ => ⟨hc.1, hc.2⟩, fun s h => by simp at h, fun h => by simp at h⟩

set_option maxRecDepth 8000 in
/-- C7 counterexample: a table that passes both ceilings is rendered in
full even though its memory exceeds 0.9 × the ceiling — the claimed
"rendered slice ≤ 0.9 × memory ceiling" bound does not hold for the
pass-through branch. -/
theorem C7_counterexample :
    safe_dataframe ⟨[⟨"x", DType.numeric, List.replicate 100 (.num 1)⟩]⟩
        1000 (1 / 1024) = .full ∧
    (⟨[⟨"x", DType.numeric, List.replicate 100 (.num 1)⟩]⟩ : DF).memMB
      > (1 / 1024 : ℚ) * (9 / 10) :=
  ⟨of_decide_eq_true (by with_unfolding_all rfl),
   of_decide_eq_true (by with_unfolding_all rfl)⟩

set_option maxRecDepth 40000 in
/-- C7 witness: on a 200-row table with a 1 KiB memory ceiling the guard
truncates to 99 rows, and that slice satisfies the 0.9 margin. -/
theorem C7_witness :
    ((⟨[⟨"x", DType.numeric, List.replicate 200 (.num 1)⟩]⟩ : DF).headDF 99).memMB
      ≤ (1 / 1024 : ℚ) * (9 / 10) :=
  (C7_render_guard ⟨[⟨"x", DType.numeric, List.replicate 200 (.num 1)⟩]⟩
    50000 (1 / 1024)).2.2.1 99 (of_decide_eq_true (by with_unfolding_all rfl))

/-- C4: applying a by-province unification mapping through
`get_filtered_data` keeps the shape of the table, leaves every column
other than the sector column unchanged, and changes sector cells only on
rows whose province is one named in the mapping. -/
theorem C4_unification_frame (df : DF) (m : List (String × List (String × String)))
    (r : DF) (h : get_filtered_data df none
      (some [("sector_unification_mapping_by_province", FVal.mapByProv m)]) = .ok r) :
    r.cols.length = df.cols.length ∧
    ∀ j cj rj, df.cols.get? j = some cj → r.cols.get? j = some rj →
      rj.name = cj.name ∧ rj.dtype = cj.dtype ∧
      (cj.name ≠ "sector" → rj = cj) ∧
      (∀ i, (∀ pm ∈ m, provAt df i ≠ some (.str pm.1)) →
        rj.cells.get? i = cj.cells.get? i) := by
  have hcontains : unification_keys.contains "sector_unification_mapping_by_province"
      = true := by decide
  have hr : r = unificationStage df
      (some [("sector_unification_mapping_by_province", FVal.mapByProv m)]) := by
    unfold get_filtered_data activityStage at h
    dsimp only at h
    simp only [Bind.bind, Except.bind] at h
    unfold filtersStage at h
    rw [List.foldl_cons, if_pos hcontains, List.foldl_nil] at h
    injection h with h'
    exact h'.symm
  have hlook : fLookup [("sector_unification_mapping_by_province", FVal.mapByProv m)]
      "sector_unification_mapping_by_province" = some (FVal.mapByProv m) := rfl
  rw [hr]
  unfold unificationStage
  dsimp only
  rw [hlook]
  dsimp only
  split
  · split
    · have hrel := applyByProvince_rel df m
      constructor
      · exact hrel.length_eq.symm
      · intro j cj rj hj hrj
        have hc := forall₂_get _ _ _ hrel j cj rj hj hrj
        refine ⟨hc.1, hc.2.1, hc.2.2.1, ?_⟩
        intro i hi
        refine hc.2.2.2 i (fun p hp => ?_)
        obtain ⟨pm, hpm, hfst⟩ := List.mem_map.mp hp
        rw [← hfst]
        exact hi pm hpm
    · refine ⟨rfl, ?_⟩
      intro j cj rj hj hrj
      rw [hj] at hrj
      injection hrj with h'
      subst h'
      exact ⟨rfl, rfl, fun _ => rfl, fun _ _ => rfl⟩
  · refine ⟨rfl, ?_⟩
    intro j cj rj hj hrj
    rw [hj] at hrj
    injection hrj with h'
    subst h'
    exact ⟨rfl, rfl, fun _ => rfl, fun _ _ => rfl⟩

/-- C4 witness: on a two-province table, a mapping for province `P` leaves
the sector cell of the row in province `Q` unchanged. -/
theorem C4_witness :
    (Col.mk "sector" DType.object [.str "b", .str "a"]).cells.get? 1
      = (Col.mk "sector" DType.object [.str "a", .str "a"]).cells.get? 1 := by
  have h := C4_unification_frame
    ⟨[⟨"nombre_prov", DType.object, [.str "P", .str "Q"]⟩,
      ⟨"sector", DType.object, [.str "a", .str "a"]⟩]⟩
    [("P", [("a", "b")])]
    ⟨[⟨"nombre_prov", DType.object, [.str "P", .str "Q"]⟩,
      ⟨"sector", DType.object, [.str "b", .str "a"]⟩]⟩ rfl
  exact (h.2 1 _ _ rfl rfl).2.2.2 1 (by decide)

/-- C6: on a non-empty view with the four needed columns,
`calculate_cerco_effectiveness` returns one row per distinct facility
value, with `total_houses` counting that facility's rows whose attention
indicator is in {1,2,3,4}, `positive_houses` counting its rows with
positivity flag 1 and indicator 1, and the guarded percentage
`(total − positive)/total × 100` (0 when `total` is 0, never a division
error); an empty view yields `.ok []`. -/
theorem C6_cerco_effectiveness (data : DF) (hWf : data.Wf) :
    (data.isEmpty = true → calculate_cerco_effectiveness data = .ok []) ∧
    (∀ lc cc ac vc rows, data.isEmpty = false →
      data.findCol "localidad_eess" = some lc →
      data.findCol "cod_renipress" = some cc →
      data.findCol "atencion_vivienda_indicador" = some ac →
      data.findCol "viv_positiva" = some vc →
      calculate_cerco_effectiveness data = .ok rows →
      rows.length = (pdUnique false lc.cells).length ∧
      ∀ i f r, (pdUnique false lc.cells).get? i = some f → rows.get? i = some r →
        r.localidad_eess = f ∧
        r.total_houses = ((lc.cells.zip ac.cells).filter
          (fun p => pyEqCell p.1 f &&
            pyIsinCell p.2 [.num 1, .num 2, .num 3, .num 4])).length ∧
        r.positive_houses = ((lc.cells.zip (vc.cells.zip ac.cells)).filter
          (fun p => pyEqCell p.1 f &&
            (pyEqCell p.2.1 (.num 1) && pyEqCell p.2.2 (.num 1)))).length ∧
        r.effectiveness_percentage = (if 0 < r.total_houses then
          ((r.total_houses : ℚ) - (r.positive_houses : ℚ)) / (r.total_houses : ℚ) * 100
        else 0)) := by
  constructor
  · intro he
    unfold calculate_cerco_effectiveness
    rw [if_pos he]
  · intro lc cc ac vc rows hne hlc hcc hac hvc hrows
    have hlenl : lc.cells.length = data.numRows :=
      hWf lc (List.mem_of_find?_eq_some hlc)
    have hlena : ac.cells.length = data.numRows :=
      hWf ac (List.mem_of_find?_eq_some hac)
    have hlenv : vc.cells.length = data.numRows :=
      hWf vc (List.mem_of_find?_eq_some hvc)
    unfold calculate_cerco_effectiveness at hrows
    rw [if_neg (by rw [hne]; simp)] at hrows
    rw [hlc, hcc, hac, hvc] at hrows
    dsimp only at hrows
    injection hrows with hrows'
    rw [← hrows']
    constructor
    · exact List.length_map _ _
    · intro i f r hf hr
      rw [List.get?_map, hf, Option.map_some'] at hr
      injection hr with hr'
      subst hr'
      refine ⟨rfl, ?_, ?_, rfl⟩
      · dsimp only
        exact applyMask_filter_count (fun v => pyEqCell v f)
          (fun v => pyIsinCell v [.num 1, .num 2, .num 3, .num 4])
          lc.cells ac.cells (by rw [hlenl, hlena])
      · dsimp only
        rw [applyMask_zip]
        exact applyMask_filter_count (fun v => pyEqCell v f)
          (fun p => pyEqCell p.1 (.num 1) && pyEqCell p.2 (.num 1))
          lc.cells (vc.cells.zip ac.cells)
          (by rw [hlenl, List.length_zip, hlenv, hlena, Nat.min_self])

/-- C6 witness: on a one-row view the facility row reports one attended
house, matching the zip-filter count. -/
theorem C6_witness :
    (CercoRow.mk (.num 5) (.str "A") 1 1 0 2).total_houses
      = (([Val.str "A"].zip [Val.num 1]).filter
          (fun p => pyEqCell p.1 (.str "A") &&
            pyIsinCell p.2 [.num 1, .num 2, .num 3, .num 4])).length := by
  have h := (C6_cerco_effectiveness
    ⟨[⟨"localidad_eess", DType.object, [.str "A"]⟩,
      ⟨"cod_renipress", DType.numeric, [.num 5]⟩,
      ⟨"atencion_vivienda_indicador", DType.numeric, [.num 1]⟩,
      ⟨"viv_positiva", DType.numeric, [.num 1]⟩]⟩ (by decide)).2
    ⟨"localidad_eess", DType.object, [.str "A"]⟩
    ⟨"cod_renipress", DType.numeric, [.num 5]⟩
    ⟨"atencion_vivienda_indicador", DType.numeric, [.num 1]⟩
    ⟨"viv_positiva", DType.numeric, [.num 1]⟩
    [CercoRow.mk (.num 5) (.str "A") 1 1 0 2]
    rfl rfl rfl rfl rfl (by with_unfolding_all rfl)
  exact (h.2 0 (.str "A") (CercoRow.mk (.num 5) (.str "A") 1 1 0 2) rfl rfl).2.1

/-- A non-empty whitespace-only string cell (C1's "whitespace-only"
markers). -/
def wsOnly : Val → Bool
  | .str s => s ≠ "" ∧ s.data.all Char.isWhitespace
  | _ => false

/-- The C1 claim as stated: after optimization and normalization no
numeric column holds a null and no text (object or categorical) column
holds a null, a literal nan/NaN/None, or a residual whitespace-only
string. -/
def C1OriginalProp (df : DF) : Prop :=
  ∀ c ∈ (process_data (optimize_for_production df)).cols,
    (c.dtype = .numeric → ∀ v ∈ c.cells, v ≠ .null) ∧
    ((c.dtype = .object ∨ c.dtype = .category) → ∀ v ∈ c.cells,
      v ≠ .null ∧ v ≠ .str "nan" ∧ v ≠ .str "NaN" ∧ v ≠ .str "None" ∧ wsOnly v = false)

/-- C1 (amended): after `process_data`, numeric columns hold no null and
object-dtype columns hold only strings that are not `"nan"`, `"NaN"`,
`"None"` or the single space; and every object cell of a non-date,
non-critical, non-`year` column that held one of the literal markers (or
a null) holds the true empty string at the same position.  (Categorical
columns and whitespace-only strings other than `" "` are NOT covered:
that is the correction.) -/
theorem C1_no_nan_invariant (df : DF) :
    (∀ c ∈ (process_data df).cols,
      (c.dtype = .numeric → ∀ v ∈ c.cells, v ≠ .null) ∧
      (c.dtype = .object → ∀ v ∈ c.cells, ∃ s, v = .str s ∧
        s ≠ "nan" ∧ s ≠ "NaN" ∧ s ≠ "None" ∧ s ≠ " ")) ∧
    (∀ j c, df.cols.get? j = some c → c.dtype = .object →
      c.name ∉ date_columns → c.name ∉ critical_numeric_columns →
      c.name ≠ "year" → ∀ i v, c.cells.get? i = some v →
      (v = .str "" ∨ v = .str " " ∨ v = .str "nan" ∨ v = .str "NaN" ∨
        v = .str "None" ∨ v = .null) →
      ∃ c2, (process_data df).cols.get? j = some c2 ∧
        c2.cells.get? i = some (.str "")) := by
  constructor
  · rw [process_data_eq_fused]
    intro c hc
    obtain ⟨y, hy, hyc⟩ := List.mem_map.mp hc
    rcases yearAdjust_mem _ y hy with hmem | ⟨L, hyear⟩
    · obtain ⟨c0, -, hcol1⟩ := List.mem_map.mp hmem
      rw [← hyc, ← hcol1]
      constructor
      · intro hn v hv
        exact cs21_numeric_cells c0 hn v hv
      · intro ho v hv
        obtain ⟨s, hs, hrange⟩ := cs21_object_cells c0 ho v hv
        refine ⟨s, hs, ?_, ?_, ?_, ?_⟩ <;>
          rcases hrange with h | ⟨h1, h2, h3, h4, h5⟩ <;> simp_all
    · rw [← hyc, hyear, cs2_yearcol]
      constructor
      · intro _ v hv
        obtain ⟨x, -, hx⟩ := List.mem_map.mp hv
        rw [← hx]
        exact fill0_ne_null x
      · intro ho
        exact absurd ho (by simp)
  · intro j c hj hobj hdc hcr hyr i v hi hm
    rw [process_data_eq_fused]
    have hX : (df.cols.map colStep1).get? j = some (colStep1 c) := by
      rw [List.get?_map, hj]
      rfl
    have hY : (yearAdjust (df.cols.map colStep1)).get? j = some (colStep1 c) :=
      yearAdjust_get _ j _ hX (by rw [colStep1_name]; exact hyr)
    have hc1 : colStep1 c = { c with cells := c.cells.map repl3cell } := by
      unfold colStep1
      rw [if_neg (by simpa using hdc)]
    have hc2 : colStep2 (colStep1 c) =
        { c with cells := (c.cells.map repl3cell).map text_clean_cell } := by
      rw [hc1]
      unfold colStep2
      rw [if_neg (by simpa using hcr)]
      rw [if_neg (by simp only; rw [hobj]; simp)]
      rw [if_pos (by simp only; exact ⟨hobj, by simpa using hdc⟩)]
    refine ⟨colStep2 (colStep1 c), ?_, ?_⟩
    · rw [List.get?_map, hY]
      rfl
    · rw [hc2]
      simp only
      rw [List.get?_map, List.get?_map, hi]
      simp only [Option.map_some']
      rcases hm with h | h | h | h | h | h <;> rw [h] <;> rfl

/-- C1 counterexample: a low-cardinality text column is converted to
categorical by the production optimization and then skipped by the text
cleaning (its nulls survive), and a two-space string survives cleaning in
an object column — both violating the claimed invariant. -/
theorem C1_counterexample :
    ¬ C1OriginalProp ⟨[⟨"t", DType.object, [.str "a", .null, .null, .null]⟩,
                       ⟨"u", DType.object, [.str "  ", .str "b", .str "c", .str "d"]⟩]⟩ := by
  unfold C1OriginalProp
  exact of_decide_eq_true (by with_unfolding_all rfl)

/-- C1 witness: a literal `"nan"` cell of an object column is cleared to
the true empty string in place. -/
theorem C1_witness :
    ∃ c2, (process_data ⟨[⟨"t", DType.object, [.str "nan"]⟩]⟩).cols.get? 0 = some c2 ∧
      c2.cells.get? 0 = some (.str "") :=
  (C1_no_nan_invariant ⟨[⟨"t", DType.object, [.str "nan"]⟩]⟩).2 0
    ⟨"t", DType.object, [.str "nan"]⟩ rfl rfl (by decide) (by decide) (by decide)
    0 (.str "nan") rfl (by decide)
